import Mathlib

/-!
Verification development for the SubTracker subscription tracker.

The definitions below are a shallow embedding of the program's core:
`src/src/models/subscription.py` (enums and the `Subscription` record),
`src/src/utils/date_utils.py` (`calculate_next_renewal_date`) and
`src/src/services/subscription_service.py` (the `SubscriptionService`
aggregation, budget and CRUD logic).

Conventions of the embedding:
* Python `datetime.date` is modelled by `Date` (proleptic Gregorian
  calendar, year unbounded above; Python's year-9999 ceiling is a
  machine limit that none of the verified properties touch).
* `dateutil.relativedelta(months=n)` / `(years=n)` become
  `addMonthsClamped` / `addYearsClamped`: the day-of-month is clamped to
  the last valid day of the target month, exactly as `relativedelta`
  does for non-existing days.
* `date.today()` is an ambient input in Python; every embedded operation
  that needs it takes an explicit `today : Date` argument.
* Python `float` costs and budgets are modelled by `ℚ`; the float
  values appearing in the claims (41.96, 30.0, …) are exact decimals.
* Unbounded `while` loops are modelled by fuel that is proved (from the
  strict growth of the date stepping) to be large enough for the loop
  guard to fail before the fuel runs out, so the fuelled function
  agrees with the Python loop on all valid inputs.
-/

namespace SubTracker

instance {α β : Type} [DecidableEq α] [DecidableEq β] : DecidableEq (Except α β)
  | .error a, .error b =>
    if h : a = b then .isTrue (by rw [h]) else .isFalse (by intro hh; cases hh; exact h rfl)
  | .error _, .ok _ => .isFalse (by intro h; cases h)
  | .ok _, .error _ => .isFalse (by intro h; cases h)
  | .ok a, .ok b =>
    if h : a = b then .isTrue (by rw [h]) else .isFalse (by intro hh; cases hh; exact h rfl)

/-- `BillingCycle` enum from `src/src/models/subscription.py`.
`bi_annually` has string value `"bi-annually"` and is documented there
as "Every 2 years". -/
inductive BillingCycle where
  | monthly
  | yearly
  | quarterly
  | bi_annually
  | weekly
  | other
deriving DecidableEq, Repr

/-- `SubscriptionStatus` enum from `src/src/models/subscription.py`. -/
inductive SubscriptionStatus where
  | active
  | inactive
  | cancelled
  | trial
deriving DecidableEq, Repr

/-- A Gregorian calendar date, modelling Python's `datetime.date`. -/
structure Date where
  year : Nat
  month : Nat
  day : Nat
deriving DecidableEq, Repr

/-- Gregorian leap-year rule (as in Python's `calendar.isleap`). -/
def isLeap (y : Nat) : Bool :=
  (y % 4 == 0 && y % 100 != 0) || y % 400 == 0

/-- Number of days of month `m` in year `y`. -/
def daysInMonth (y m : Nat) : Nat :=
  if m = 2 then (if isLeap y then 29 else 28)
  else if m = 4 ∨ m = 6 ∨ m = 9 ∨ m = 11 then 30
  else 31

/-- The dates `datetime.date` can actually represent (month and day in
range); the year upper bound is not modelled. -/
def Date.Valid (d : Date) : Prop :=
  1 ≤ d.month ∧ d.month ≤ 12 ∧ 1 ≤ d.day ∧ d.day ≤ daysInMonth d.year d.month

instance (d : Date) : Decidable d.Valid := by
  unfold Date.Valid; infer_instance

/-- Python's `<` on `datetime.date`: lexicographic on (year, month, day). -/
def Date.Lt (a b : Date) : Prop :=
  a.year < b.year ∨
    (a.year = b.year ∧ (a.month < b.month ∨ (a.month = b.month ∧ a.day < b.day)))

/-- Python's `<=` on `datetime.date`. -/
def Date.Le (a b : Date) : Prop :=
  a.year < b.year ∨
    (a.year = b.year ∧ (a.month < b.month ∨ (a.month = b.month ∧ a.day ≤ b.day)))

instance (a b : Date) : Decidable (Date.Lt a b) := by
  unfold Date.Lt; infer_instance

instance (a b : Date) : Decidable (Date.Le a b) := by
  unfold Date.Le; infer_instance

/-- A mixed-radix rank of a date; strictly monotone with respect to the
lexicographic order on valid dates (month ≤ 12 < 13, day ≤ 31 < 32).
Used as loop measure for the date-stepping loops. -/
def Date.key (d : Date) : Nat :=
  d.year * 416 + d.month * 32 + d.day

/-- `relativedelta(months := n)` for `n ≥ 0`: advance the month, carrying
into the year, and clamp the day to the last day of the target month. -/
def addMonthsClamped (d : Date) (n : Nat) : Date :=
  { year := d.year + (d.month - 1 + n) / 12
    month := (d.month - 1 + n) % 12 + 1
    day := min d.day (daysInMonth (d.year + (d.month - 1 + n) / 12) ((d.month - 1 + n) % 12 + 1)) }

/-- `relativedelta(years := n)` for `n ≥ 0`: advance the year and clamp
the day (Feb 29 → Feb 28 in a non-leap target year). -/
def addYearsClamped (d : Date) (n : Nat) : Date :=
  { year := d.year + n
    month := d.month
    day := min d.day (daysInMonth (d.year + n) d.month) }

/-- The day after `d` (used to implement `timedelta(weeks=1)`). -/
def Date.succDay (d : Date) : Date :=
  if d.day < daysInMonth d.year d.month then ⟨d.year, d.month, d.day + 1⟩
  else if d.month < 12 then ⟨d.year, d.month + 1, 1⟩
  else ⟨d.year + 1, 1, 1⟩

/-- `d + timedelta(days := n)`. -/
def addDays (d : Date) : Nat → Date
  | 0 => d
  | n + 1 => (addDays d n).succDay

/-- One billing-cycle step, the per-cycle `delta` of
`calculate_next_renewal_date` in `src/src/utils/date_utils.py`:
weekly `timedelta(weeks=1)`, monthly `relativedelta(months=1)`,
quarterly `relativedelta(months=3)`, yearly `relativedelta(years=1)`,
bi-annually `relativedelta(years=2)`.  The `other` case is unreachable
there (the function raises first); it is mapped to the identity. -/
def stepCycle : BillingCycle → Date → Date
  | .weekly, d => addDays d 7
  | .monthly, d => addMonthsClamped d 1
  | .quarterly, d => addMonthsClamped d 3
  | .yearly, d => addYearsClamped d 1
  | .bi_annually, d => addYearsClamped d 2
  | .other, d => d

/-- The `while next_date < today: next_date += delta` loop of
`calculate_next_renewal_date`, with explicit fuel.  The fuel used by the
callers is proved sufficient (`advanceWhileLt_not_lt`): the loop guard
fails before the fuel can run out, so the function computes exactly the
value of the Python loop. -/
def advanceWhileLt (c : BillingCycle) (today : Date) : Nat → Date → Date
  | 0, d => d
  | fuel + 1, d =>
    if Date.Lt d today then advanceWhileLt c today fuel (stepCycle c d) else d

/-- `calculate_next_renewal_date` from `src/src/utils/date_utils.py`.
`today` (Python's `date.today()`) is an explicit argument.  The base
date is `start_date`, replaced by `last_renewal` when that is provided
and later; the `OTHER` cycle raises `ValueError` (modelled as `.error`);
every other cycle adds one cycle step and then fast-forwards with the
same step while the candidate is before `today`.  The per-cycle branch
of the source lives in `stepCycle`. -/
def renewalBase (start_date : Date) (last_renewal : Option Date) : Date :=
  match last_renewal with
  | some l => if Date.Lt start_date l then l else start_date
  | none => start_date

def calculate_next_renewal_date (today : Date) (start_date : Date)
    (cycle : BillingCycle) (last_renewal : Option Date) : Except String Date :=
  if cycle = .other then
    .error "Cannot automatically calculate next renewal date for OTHER billing cycle."
  else
    .ok (advanceWhileLt cycle today (today.key + 1)
          (stepCycle cycle (renewalBase start_date last_renewal)))

/-- Python `str.lower()` (ASCII; category and period strings are ASCII). -/
def pyLower (s : String) : String := ⟨s.data.map Char.toLower⟩

/-- Whitespace stripped by Python `str.strip()`. -/
def isPySpace (c : Char) : Bool :=
  c = ' ' || c = '\t' || c = '\n' || c = '\r' || c = '\x0b' || c = '\x0c'

/-- Python `str.strip()`. -/
def pyStrip (s : String) : String :=
  ⟨((s.data.dropWhile isPySpace).reverse.dropWhile isPySpace).reverse⟩

/-- The `Subscription` dataclass from `src/src/models/subscription.py`.
`cost` (a Python `float`) is modelled by `ℚ`; the auto-generated uuid
`id` is a plain string field. -/
structure Subscription where
  name : String
  cost : ℚ
  billing_cycle : BillingCycle
  start_date : Date
  url : Option String := none
  username : Option String := none
  category : String := "Uncategorized"
  status : SubscriptionStatus := .active
  next_renewal_date : Option Date := none
  id : String := ""
  currency : String := "USD"
  notes : String := ""
  trial_end_date : Option Date := none
  service_provider : Option String := none
  payment_method : Option String := none
deriving DecidableEq, Repr

/-- `Subscription.__post_init__`: reject empty name and negative cost,
then enforce the trial/status coupling (a set `trial_end_date` forces
`trial`; a `trial` status without `trial_end_date` is reset to
`active`). -/
def Subscription.postInit (s : Subscription) : Except String Subscription :=
  if s.name = "" then .error "Subscription name cannot be empty."
  else if s.cost < 0 then .error "Subscription cost cannot be negative."
  else if s.trial_end_date.isSome ∧ s.status ≠ .trial then .ok { s with status := .trial }
  else if s.trial_end_date.isNone ∧ s.status = .trial then .ok { s with status := .active }
  else .ok s

/-- The state of `SubscriptionService`: the known categories
(`self._categories`, a set, modelled as a list), the nested budget
`{"monthly": {"global": …, "categories": {…}}}` flattened to its two
monthly components, and the id-keyed subscription dict modelled as a
list in insertion order.  File paths and JSON persistence are out of
scope. -/
structure SubscriptionService where
  categories : List String
  budget_global : Option ℚ
  budget_categories : List (String × Option ℚ)
  subscriptions : List Subscription
deriving DecidableEq, Repr

/-- `get_categories`: the union of `self._categories` and the budget's
category keys.  The source returns this set as a sorted list; the
ordering is dropped here (no verified property observes it). -/
def get_categories (svc : SubscriptionService) : List String :=
  (svc.categories ++ svc.budget_categories.map Prod.fst).dedup

/-- `SubscriptionService._get_annual_factor`: occurrences per year of a
billing cycle.  The source returns `2.0` for `BI_ANNUALLY` (comment:
"Assuming twice a year"), although the model and the renewal stepper
treat the cycle as once every two years. -/
def _get_annual_factor (cycle : BillingCycle) : ℚ :=
  match cycle with
  | .monthly => 12
  | .yearly => 1
  | .quarterly => 4
  | .weekly => 52
  | .bi_annually => 2
  | .other => 0

/-- `SubscriptionService._normalize_cost_to_period`: `annual_cost = cost
* factor`; `monthly` yields `annual_cost / 12` (or `0` when `annual_cost
<= 0`), `annually` yields `annual_cost`, anything else raises. -/
def _normalize_cost_to_period (cost : ℚ) (cycle : BillingCycle)
    (target_period : String) : Except String ℚ :=
  if pyLower target_period = "monthly" then
    .ok (if 0 < cost * _get_annual_factor cycle then cost * _get_annual_factor cycle / 12 else 0)
  else if pyLower target_period = "annually" then
    .ok (cost * _get_annual_factor cycle)
  else
    .error "Unsupported target period."

/-- Contribution of one subscription to `calculate_cost_per_period`: the
loop body adds the normalized cost of every `ACTIVE` subscription and
adds nothing when normalization reports an error. -/
def periodContribution (p : String) (sub : Subscription) : ℚ :=
  if sub.status = .active then
    match _normalize_cost_to_period sub.cost sub.billing_cycle p with
    | .ok v => v
    | .error _ => 0
  else 0

/-- `calculate_cost_per_period`: total normalized cost of all active
subscriptions; a period other than `monthly`/`annually` (after
lower-casing) raises `ValueError`. -/
def calculate_cost_per_period (svc : SubscriptionService) (period : String) :
    Except String ℚ :=
  if pyLower period = "monthly" ∨ pyLower period = "annually" then
    .ok ((svc.subscriptions.map (periodContribution (pyLower period))).sum)
  else
    .error "Period must be monthly or annually."

/-- The renewal-date initialisation `add_subscription` performs on the
subscription it stores: a non-`TRIAL` subscription gets a computed
`next_renewal_date` (`None` for the `OTHER` cycle or on a calculation
error); a `TRIAL` subscription gets `None`. -/
def addStored (today : Date) (sub : Subscription) : Subscription :=
  if sub.status ≠ .trial then
    if sub.billing_cycle = .other then { sub with next_renewal_date := none }
    else
      match calculate_next_renewal_date today sub.start_date sub.billing_cycle none with
      | .ok d => { sub with next_renewal_date := some d }
      | .error _ => { sub with next_renewal_date := none }
  else { sub with next_renewal_date := none }

/-- `add_subscription`: reject a duplicate id; otherwise initialise the
renewal date (`addStored`) and store. -/
def add_subscription (today : Date) (svc : SubscriptionService)
    (sub : Subscription) : Except String SubscriptionService :=
  if (svc.subscriptions.map Subscription.id).contains sub.id then
    .error "Subscription with this ID already exists."
  else
    .ok { svc with subscriptions := svc.subscriptions ++ [addStored today sub] }

/-- Body of the per-subscription loop of
`_recalculate_all_renewal_dates`: `TRIAL` forces `None`, the `OTHER`
cycle is skipped, otherwise the renewal date is recomputed using the
stored `next_renewal_date` as calculation base (`None` on error). -/
def _recalculate_sub (today : Date) (sub : Subscription) : Subscription :=
  if sub.status = .trial then { sub with next_renewal_date := none }
  else if sub.billing_cycle = .other then sub
  else
    match calculate_next_renewal_date today sub.start_date sub.billing_cycle
        sub.next_renewal_date with
    | .ok d => { sub with next_renewal_date := some d }
    | .error _ => { sub with next_renewal_date := none }

/-- `_recalculate_all_renewal_dates`, run on load over every stored
subscription (the `updated` flag of the source only drives saving). -/
def _recalculate_all_renewal_dates (today : Date) (svc : SubscriptionService) :
    SubscriptionService :=
  { svc with subscriptions := svc.subscriptions.map (_recalculate_sub today) }

/-- `_ensure_status_consistency`: a set `trial_end_date` forces status
`TRIAL`; an unset one turns a `TRIAL` status into `ACTIVE`.  Returns the
subscription and whether the status changed. -/
def _ensure_status_consistency (sub : Subscription) : Subscription × Bool :=
  if sub.trial_end_date.isSome ∧ sub.status ≠ .trial then
    ({ sub with status := .trial }, true)
  else if sub.trial_end_date.isNone ∧ sub.status = .trial then
    ({ sub with status := .active }, true)
  else (sub, false)

/-- `_update_renewal_date` as called from `update_subscription`: a
manual `next_renewal_date` supplied in the same update is respected
unless the status is `TRIAL`; `TRIAL` and `CANCELLED` force `None`; a
change of `start_date`, `billing_cycle` or `status` triggers a
recomputation (from `start_date` only, no `last_renewal` base).
Returns the subscription and whether the date changed. -/
def updateRenewalValue (today : Date) (sub : Subscription)
    (changed_fields : List String) (manually_set : Bool) : Option Date :=
  if manually_set ∧ sub.status ≠ .trial then sub.next_renewal_date
  else if sub.status = .trial then none
  else if sub.status = .cancelled then none
  else if changed_fields.contains "start_date" ∨ changed_fields.contains "billing_cycle" ∨
      changed_fields.contains "status" then
    match calculate_next_renewal_date today sub.start_date sub.billing_cycle none with
    | .ok d => some d
    | .error _ => none
  else sub.next_renewal_date

def _update_renewal_date (today : Date) (sub : Subscription)
    (changed_fields : List String) (manually_set : Bool) : Subscription × Bool :=
  if sub.next_renewal_date ≠ updateRenewalValue today sub changed_fields manually_set then
    ({ sub with
        next_renewal_date := updateRenewalValue today sub changed_fields manually_set },
      true)
  else (sub, false)

/-- The event descriptions produced by `get_upcoming_events` ("renews on
…" / "trial ends on …"), with the formatted date kept structurally. -/
inductive EventKind where
  | renews (d : Date)
  | trialEnds (d : Date)
deriving DecidableEq, Repr

/-- The `get_event_date` sorting key helper inside `get_upcoming_events`
(`date.max` = 9999-12-31 in the unreachable fallback). -/
def eventSortDate (e : Subscription × EventKind) : Date :=
  match e.2 with
  | .renews _ =>
    match e.1.next_renewal_date with
    | some d => d
    | none => ⟨9999, 12, 31⟩
  | .trialEnds _ =>
    match e.1.trial_end_date with
    | some d => d
    | none => ⟨9999, 12, 31⟩

/-- The per-subscription body of the `get_upcoming_events` loop: a
renewal event when `next_renewal_date` is set, the status is none of
`TRIAL`/`CANCELLED`/`INACTIVE` and the date lies in
`[today, target_date]`; plus a trial-end event when `trial_end_date` is
set, the status is `TRIAL` and the date lies in the window. -/
def upcomingEventsOf (today target_date : Date) (sub : Subscription) :
    List (Subscription × EventKind) :=
  (match sub.next_renewal_date with
   | some r =>
     if (sub.status ≠ .trial ∧ sub.status ≠ .cancelled ∧ sub.status ≠ .inactive) ∧
         Date.Le today r ∧ Date.Le r target_date then
       [(sub, .renews r)]
     else []
   | none => []) ++
  (match sub.trial_end_date with
   | some t =>
     if sub.status = .trial ∧ Date.Le today t ∧ Date.Le t target_date then
       [(sub, .trialEnds t)]
     else []
   | none => [])

/-- `get_upcoming_events(days_ahead)`: collect renewal and trial-end
events in `[today, today + days_ahead]` and sort them by event date
(Python's stable `sort`, modelled by `mergeSort` on the date rank). -/
def get_upcoming_events (today : Date) (svc : SubscriptionService)
    (days_ahead : Nat) : List (Subscription × EventKind) :=
  (svc.subscriptions.flatMap (upcomingEventsOf today (addDays today days_ahead))).mergeSort
    (fun a b => (eventSortDate a).key ≤ (eventSortDate b).key)

/-- `delete_category`: strip the name; an empty or `"Uncategorized"`
result is rejected; otherwise remove the category from the known set and
from the budget keys, relabel every subscription carrying it to
`"Uncategorized"`, and report whether anything changed. -/
def delete_category (svc : SubscriptionService) (category_to_delete : String) :
    SubscriptionService × Bool :=
  if pyStrip category_to_delete = "" ∨ pyStrip category_to_delete = "Uncategorized" then
    (svc, false)
  else
    ({ categories := svc.categories.filter (fun x => x ≠ pyStrip category_to_delete),
       budget_global := svc.budget_global,
       budget_categories :=
         svc.budget_categories.filter (fun p => p.1 ≠ pyStrip category_to_delete),
       subscriptions := svc.subscriptions.map (fun sub =>
         if sub.category = pyStrip category_to_delete then
           { sub with category := "Uncategorized" }
         else sub) },
     svc.categories.contains (pyStrip category_to_delete) ||
       (svc.budget_categories.map Prod.fst).contains (pyStrip category_to_delete) ||
       svc.subscriptions.any (fun sub => sub.category = pyStrip category_to_delete))

/-- Python-dict insertion/update used by the `defaultdict(float)`
accumulation of `calculate_cost_per_category`: add `v` to the entry for
`k`, appending a fresh entry when absent. -/
def bump (m : List (String × ℚ)) (k : String) (v : ℚ) : List (String × ℚ) :=
  match m with
  | [] => [(k, v)]
  | (k', v') :: rest => if k' = k then (k', v' + v) :: rest else (k', v') :: bump rest k v

/-- Dict lookup on the association-list model. -/
def lookupQ (m : List (String × ℚ)) (k : String) : Option ℚ :=
  match m with
  | [] => none
  | (k', v') :: rest => if k' = k then some v' else lookupQ rest k

/-- Sum of the dict's values. -/
def sumValues : List (String × ℚ) → ℚ
  | [] => 0
  | kv :: rest => kv.2 + sumValues rest

/-- The category key used by `calculate_cost_per_category`:
`sub.category.strip() if sub.category and sub.category.strip() else
"Uncategorized"`. -/
def effectiveCategory (sub : Subscription) : String :=
  if sub.category ≠ "" ∧ pyStrip sub.category ≠ "" then pyStrip sub.category
  else "Uncategorized"

/-- Loop body of `calculate_cost_per_category`: an `ACTIVE` subscription
adds its normalized cost under its effective category; normalization
errors add nothing. -/
def categoryStep (p : String) (m : List (String × ℚ)) (sub : Subscription) :
    List (String × ℚ) :=
  if sub.status = .active then
    match _normalize_cost_to_period sub.cost sub.billing_cycle p with
    | .ok v => bump m (effectiveCategory sub) v
    | .error _ => m
  else m

/-- The `for cat in all_categories: if cat not in cost_by_category:
cost_by_category[cat] = 0.0` fill-in loop. -/
def fillStep (m : List (String × ℚ)) (c : String) : List (String × ℚ) :=
  if lookupQ m c = none then m ++ [(c, 0)] else m

/-- `calculate_cost_per_category`: accumulate active subscriptions'
normalized costs per category, fill every known category in with zero,
and add an `"Uncategorized"` zero entry when it is still missing and
some active subscription has a blank category. -/
def calculate_cost_per_category (svc : SubscriptionService) (period : String) :
    Except String (List (String × ℚ)) :=
  if pyLower period = "monthly" ∨ pyLower period = "annually" then
    let m1 := (get_categories svc).foldl fillStep
      (svc.subscriptions.foldl (categoryStep (pyLower period)) [])
    if lookupQ m1 "Uncategorized" = none ∧
        svc.subscriptions.any (fun sub =>
          sub.status = .active ∧ (sub.category = "" ∨ pyStrip sub.category = "")) then
      .ok (m1 ++ [("Uncategorized", 0)])
    else
      .ok m1
  else
    .error "Period must be monthly or annually."

/-- All values of the accumulating dict are non-negative. -/
def AllNonneg (m : List (String × ℚ)) : Prop := ∀ kv ∈ m, 0 ≤ kv.2

/-- The alert messages of `check_budget_alerts`, with the formatted
numbers (`:.2f` in the source) kept structurally.  The two `*Failed`
variants model the generic "could not check" messages appended when an
aggregate calculation raises; they are unreachable for the fixed
`'monthly'` period the function passes. -/
inductive Alert where
  | globalOver (spend budget overage : ℚ)
  | categoryOver (category : String) (spend budget overage : ℚ)
  | globalCheckFailed
  | categoryCheckFailed
deriving DecidableEq, Repr

/-- `monthly_costs_per_category.get(category, 0.0)`. -/
def getCost (costs : List (String × ℚ)) (c : String) : ℚ :=
  match lookupQ costs c with
  | some v => v
  | none => 0

/-- Loop body of the per-category half of `check_budget_alerts`: a
category with a set, non-negative budget below its monthly cost appends
one alert. -/
def categoryAlertStep (costs : List (String × ℚ)) (acc : List Alert)
    (cb : String × Option ℚ) : List Alert :=
  match cb.2 with
  | some b =>
    if 0 ≤ b then
      if b < getCost costs cb.1 then
        acc ++ [.categoryOver cb.1 (getCost costs cb.1) b (getCost costs cb.1 - b)]
      else acc
    else acc
  | none => acc

/-- The global half of `check_budget_alerts`: fires when a global
monthly budget is set, is a non-negative number, and the monthly cost
exceeds it. -/
def globalBudgetAlerts (svc : SubscriptionService) : List Alert :=
  match svc.budget_global with
  | none => []
  | some g =>
    if 0 ≤ g then
      match calculate_cost_per_period svc "monthly" with
      | .ok current =>
        if g < current then [.globalOver current g (current - g)] else []
      | .error _ => [.globalCheckFailed]
    else []

/-- The per-category half of `check_budget_alerts`: runs only when
category budgets exist. -/
def categoryBudgetAlerts (svc : SubscriptionService) : List Alert :=
  if svc.budget_categories = [] then []
  else
    match calculate_cost_per_category svc "monthly" with
    | .ok costs => svc.budget_categories.foldl (categoryAlertStep costs) []
    | .error _ => [.categoryCheckFailed]

/-- `check_budget_alerts`: the global check followed by the
per-category checks. -/
def check_budget_alerts (svc : SubscriptionService) : List Alert :=
  globalBudgetAlerts svc ++ categoryBudgetAlerts svc

/-- One forward step of the forecast walk: the renewal calculator with
the current occurrence as `last_renewal`; a `ValueError` becomes `none`
(the walk then stops for this subscription). -/
def forecastNext (today : Date) (sub : Subscription) (d : Date) : Option Date :=
  match calculate_next_renewal_date today sub.start_date sub.billing_cycle (some d) with
  | .ok d' => some d'
  | .error _ => none

/-- The `while temp_date < start_date` loop of
`calculate_spending_forecast` that advances the walk to the first
occurrence on or after the forecast start (fuelled; the fuel used by the
caller is proved sufficient). -/
def seekLoop (today sd : Date) (sub : Subscription) : Nat → Date → Option Date
  | 0, d => some d
  | fuel + 1, d =>
    if Date.Lt d sd then
      match forecastNext today sub d with
      | some d' => seekLoop today sd sub fuel d'
      | none => none
    else some d

/-- The `while current_renewal_date and current_renewal_date <=
end_date` loop of `calculate_spending_forecast` that accumulates
`sub.cost` per occurrence (fuelled; the fuel used by the caller is
proved sufficient). -/
def accumLoop (today ed : Date) (sub : Subscription) : Nat → Option Date → ℚ
  | _, none => 0
  | 0, some _ => 0
  | fuel + 1, some d =>
    if Date.Le d ed then
      sub.cost + accumLoop today ed sub fuel (forecastNext today sub d)
    else 0

/-- Per-subscription forecast contribution: seed the walk with the
cached `next_renewal_date` (or `start_date`), advance it to the
forecast window only when it is missing or lies before the window, then
accumulate the cost of every occurrence up to `end_date`. -/
def forecastSub (today sd ed : Date) (sub : Subscription) : ℚ :=
  accumLoop today ed sub (ed.key + 1)
    (match sub.next_renewal_date with
     | some r => if Date.Lt r sd then seekLoop today sd sub (sd.key + 1) r else some r
     | none => seekLoop today sd sub (sd.key + 1) sub.start_date)

/-- `calculate_spending_forecast(start_date, end_date)`.  A `none`
argument models a non-`date` Python value (the `isinstance` check);
`start_date > end_date` raises; otherwise the per-subscription walks of
every `ACTIVE`, non-`OTHER` subscription are summed. -/
def calculate_spending_forecast (today : Date) (svc : SubscriptionService)
    (start_date end_date : Option Date) : Except String ℚ :=
  match start_date, end_date with
  | some sd, some ed =>
    if Date.Lt ed sd then .error "start_date cannot be after end_date."
    else
      .ok (svc.subscriptions.foldl (fun total sub =>
        if sub.status ≠ .active ∨ sub.billing_cycle = .other then total
        else total + forecastSub today sd ed sub) 0)
  | _, _ => .error "start_date and end_date must be date objects."

/-- The walk's seed, `sub.next_renewal_date or sub.start_date`. -/
def forecastSeed (sub : Subscription) : Date :=
  match sub.next_renewal_date with
  | some r => r
  | none => sub.start_date

/-- Specification-side occurrence list, following the spec's wording for
the forecast: starting from the subscription's own seed, walk one
cycle-step at a time (via the renewal calculator) and record every
occurrence until the first one past `ed`. -/
def forecastOccurrences (today : Date) (sub : Subscription) (ed : Date) :
    Nat → Date → List Date
  | 0, _ => []
  | fuel + 1, d =>
    if Date.Le d ed then
      d :: (match forecastNext today sub d with
            | some d' => forecastOccurrences today sub ed fuel d'
            | none => [])
    else []

/-- Specification-side: the occurrences of `sub` falling within
`[sd, ed]` inclusive. -/
def specOccurrencesInRange (today : Date) (sub : Subscription) (sd ed : Date) :
    List Date :=
  (forecastOccurrences today sub ed (ed.key + 1) (forecastSeed sub)).filter
    (fun d => decide (Date.Le sd d))

/-- The Python values an update dictionary can carry into
`update_subscription` in this embedding: strings, numbers, dates, the
two enums, and `None`. -/
inductive PyValue where
  | pStr (s : String)
  | pNum (q : ℚ)
  | pDate (d : Date)
  | pCycle (c : BillingCycle)
  | pStatus (st : SubscriptionStatus)
  | pNone
deriving DecidableEq, Repr

/-- The declared type of a `Subscription` field, as
`_validate_and_prepare_updates` reads it from `get_type_hints`. -/
inductive FieldTy where
  | tStr
  | tOptStr
  | tFloat
  | tCycle
  | tStatus
  | tDate
  | tOptDate
deriving DecidableEq, Repr

/-- Type hints of the `Subscription` dataclass fields (`id` is excluded:
the update loop skips it explicitly). -/
def fieldTy : String → Option FieldTy
  | "name" => some .tStr
  | "cost" => some .tFloat
  | "billing_cycle" => some .tCycle
  | "start_date" => some .tDate
  | "url" => some .tOptStr
  | "username" => some .tOptStr
  | "category" => some .tStr
  | "status" => some .tStatus
  | "next_renewal_date" => some .tOptDate
  | "currency" => some .tStr
  | "notes" => some .tStr
  | "trial_end_date" => some .tOptDate
  | "service_provider" => some .tOptStr
  | "payment_method" => some .tOptStr
  | _ => none

/-- Whether the declared type is `Optional[...]`. -/
def isOptionalTy : FieldTy → Bool
  | .tOptStr => true
  | .tOptDate => true
  | _ => false

/-- `getattr(subscription, key)` as a `PyValue` (`None` for unset
optional fields). -/
def getField (sub : Subscription) : String → Option PyValue
  | "name" => some (.pStr sub.name)
  | "cost" => some (.pNum sub.cost)
  | "billing_cycle" => some (.pCycle sub.billing_cycle)
  | "start_date" => some (.pDate sub.start_date)
  | "url" => some (match sub.url with | some s => .pStr s | none => .pNone)
  | "username" => some (match sub.username with | some s => .pStr s | none => .pNone)
  | "category" => some (.pStr sub.category)
  | "status" => some (.pStatus sub.status)
  | "next_renewal_date" =>
    some (match sub.next_renewal_date with | some d => .pDate d | none => .pNone)
  | "id" => some (.pStr sub.id)
  | "currency" => some (.pStr sub.currency)
  | "notes" => some (.pStr sub.notes)
  | "trial_end_date" =>
    some (match sub.trial_end_date with | some d => .pDate d | none => .pNone)
  | "service_provider" =>
    some (match sub.service_provider with | some s => .pStr s | none => .pNone)
  | "payment_method" =>
    some (match sub.payment_method with | some s => .pStr s | none => .pNone)
  | _ => none

/-- `setattr(subscription, key, value)` for the value shapes a
validated update can carry (wrong shapes cannot reach it and leave the
record unchanged). -/
def setField (sub : Subscription) (key : String) (v : PyValue) : Subscription :=
  match key, v with
  | "name", .pStr s => { sub with name := s }
  | "cost", .pNum q => { sub with cost := q }
  | "billing_cycle", .pCycle c => { sub with billing_cycle := c }
  | "start_date", .pDate d => { sub with start_date := d }
  | "url", .pStr s => { sub with url := some s }
  | "url", .pNone => { sub with url := none }
  | "username", .pStr s => { sub with username := some s }
  | "username", .pNone => { sub with username := none }
  | "category", .pStr s => { sub with category := s }
  | "status", .pStatus st => { sub with status := st }
  | "next_renewal_date", .pDate d => { sub with next_renewal_date := some d }
  | "next_renewal_date", .pNone => { sub with next_renewal_date := none }
  | "currency", .pStr s => { sub with currency := s }
  | "notes", .pStr s => { sub with notes := s }
  | "trial_end_date", .pDate d => { sub with trial_end_date := some d }
  | "trial_end_date", .pNone => { sub with trial_end_date := none }
  | "service_provider", .pStr s => { sub with service_provider := some s }
  | "service_provider", .pNone => { sub with service_provider := none }
  | "payment_method", .pStr s => { sub with payment_method := some s }
  | "payment_method", .pNone => { sub with payment_method := none }
  | _, _ => sub

/-- Digit run to a number. -/
def digitsToNat (cs : List Char) : Nat :=
  cs.foldl (fun n c => n * 10 + (c.toNat - 48)) 0

/-- `date.fromisoformat` for the canonical `YYYY-MM-DD` shape (invalid
calendar dates raise, hence `none`). -/
def parseIso (s : String) : Option Date :=
  match s.data with
  | [y1, y2, y3, y4, '-', m1, m2, '-', d1, d2] =>
    if ([y1, y2, y3, y4, m1, m2, d1, d2].all Char.isDigit) then
      let dt : Date := ⟨digitsToNat [y1, y2, y3, y4], digitsToNat [m1, m2],
        digitsToNat [d1, d2]⟩
      if dt.Valid then some dt else none
    else none
  | _ => none

/-- `BillingCycle(value)` from the enum's string values. -/
def cycleFromString : String → Option BillingCycle
  | "monthly" => some .monthly
  | "yearly" => some .yearly
  | "quarterly" => some .quarterly
  | "bi-annually" => some .bi_annually
  | "weekly" => some .weekly
  | "other" => some .other
  | _ => none

/-- `SubscriptionStatus(value)` from the enum's string values. -/
def statusFromString : String → Option SubscriptionStatus
  | "active" => some .active
  | "inactive" => some .inactive
  | "cancelled" => some .cancelled
  | "trial" => some .trial
  | _ => none

/-- `float(s)` for plain decimal literals (scientific notation and the
special values are not modelled; they never decide a verified
property). -/
def parseFloat (s : String) : Option ℚ :=
  match (pyStrip s).data with
  | [] => none
  | c :: cs =>
    let (neg, digits) :=
      if c = '-' then (true, cs) else if c = '+' then (false, cs) else (false, c :: cs)
    let intPart := digits.takeWhile Char.isDigit
    let rest := digits.dropWhile Char.isDigit
    match rest with
    | [] =>
      if intPart = [] then none
      else some (if neg then -(digitsToNat intPart : ℚ) else (digitsToNat intPart : ℚ))
    | '.' :: frac =>
      if frac.all Char.isDigit ∧ (intPart ≠ [] ∨ frac ≠ []) then
        some (let v : ℚ := (digitsToNat intPart : ℚ) +
          (digitsToNat frac : ℚ) / ((10 : ℚ) ^ frac.length);
          if neg then -v else v)
      else none
    | _ => none

/-- `str(value)` of the remaining value kinds (`str(date)` is ISO; the
enum `str` is the qualified member name; the rendering of numbers is
abstracted — no verified property depends on it). -/
def pyRepr : PyValue → String
  | .pStr s => s
  | .pNum q =>
    if q.den = 1 then toString q.num ++ ".0"
    else toString q.num ++ "/" ++ toString q.den
  | .pDate d =>
    toString d.year ++ "-" ++ (if d.month < 10 then "0" else "") ++ toString d.month
      ++ "-" ++ (if d.day < 10 then "0" else "") ++ toString d.day
  | .pCycle c =>
    "BillingCycle." ++
      (match c with
       | .monthly => "MONTHLY"
       | .yearly => "YEARLY"
       | .quarterly => "QUARTERLY"
       | .bi_annually => "BI_ANNUALLY"
       | .weekly => "WEEKLY"
       | .other => "OTHER")
  | .pStatus st =>
    "SubscriptionStatus." ++
      (match st with
       | .active => "ACTIVE"
       | .inactive => "INACTIVE"
       | .cancelled => "CANCELLED"
       | .trial => "TRIAL")
  | .pNone => "None"

/-- The per-type coercion/validation of `_validate_and_prepare_updates`:
dates from ISO strings, enums from their string values, `float(...)` for
cost, `str(value).strip()` for string fields given non-strings (a
string value is kept verbatim); a failed conversion (including the
last-resort `expected_type(value)` raising) yields `none` and the field
is skipped. -/
def coerceValue (ty : FieldTy) (v : PyValue) : Option PyValue :=
  match ty, v with
  | .tDate, .pStr s => (parseIso s).map .pDate
  | .tDate, .pDate d => some (.pDate d)
  | .tDate, _ => none
  | .tOptDate, .pStr s => (parseIso s).map .pDate
  | .tOptDate, .pDate d => some (.pDate d)
  | .tOptDate, _ => none
  | .tCycle, .pStr s => (cycleFromString s).map .pCycle
  | .tCycle, .pCycle c => some (.pCycle c)
  | .tCycle, _ => none
  | .tStatus, .pStr s => (statusFromString s).map .pStatus
  | .tStatus, .pStatus st => some (.pStatus st)
  | .tStatus, _ => none
  | .tFloat, .pNum q => some (.pNum q)
  | .tFloat, .pStr s => (parseFloat s).map .pNum
  | .tFloat, _ => none
  | .tStr, .pStr s => some (.pStr s)
  | .tStr, .pNone => none
  | .tStr, w => some (.pStr (pyStrip (pyRepr w)))
  | .tOptStr, .pStr s => some (.pStr s)
  | .tOptStr, .pNone => none
  | .tOptStr, w => some (.pStr (pyStrip (pyRepr w)))

/-- Python-dict assignment `valid_updates[key] = value`. -/
def upsert (m : List (String × PyValue)) (k : String) (v : PyValue) :
    List (String × PyValue) :=
  match m with
  | [] => [(k, v)]
  | (k', v') :: rest => if k' = k then (k, v) :: rest else (k', v') :: upsert rest k v

/-- Python-set insertion `changed_fields.add(key)`. -/
def addField (l : List String) (k : String) : List String :=
  if l.contains k then l else l ++ [k]

/-- The negative-cost test of the update validator. -/
def costNegative : PyValue → Bool
  | .pNum q => q < 0
  | _ => false

/-- One iteration of the `_validate_and_prepare_updates` loop over the
update items: `id` and unknown attributes are skipped; `None` is
accepted only for optional fields; otherwise the value is coerced to
the declared type, a negative cost is rejected, and a successfully
coerced value differing from the current one is recorded. -/
def validateStep (sub : Subscription)
    (acc : List (String × PyValue) × List String) (kv : String × PyValue) :
    List (String × PyValue) × List String :=
  if kv.1 = "id" then acc
  else
    match getField sub kv.1, fieldTy kv.1 with
    | some original, some ty =>
      if kv.2 = .pNone then
        if isOptionalTy ty then
          if original ≠ .pNone then (upsert acc.1 kv.1 .pNone, addField acc.2 kv.1)
          else acc
        else acc
      else
        match coerceValue ty kv.2 with
        | none => acc
        | some cv =>
          if kv.1 = "cost" ∧ costNegative cv then acc
          else if original ≠ cv then (upsert acc.1 kv.1 cv, addField acc.2 kv.1)
          else acc
    | _, _ => acc

/-- `_validate_and_prepare_updates`: returns the validated updates dict
and the set of changed fields. -/
def _validate_and_prepare_updates (sub : Subscription)
    (update_data : List (String × PyValue)) :
    List (String × PyValue) × List String :=
  update_data.foldl (validateStep sub) ([], [])

/-- The `setattr` loop applying validated updates. -/
def applyUpdates (sub : Subscription) (valid : List (String × PyValue)) :
    Subscription :=
  valid.foldl (fun s kv => setField s kv.1 kv.2) sub

/-- Steps 2–3 of `update_subscription`: apply the validated updates,
re-run the trial/status consistency rule (extending `changed_fields`
when it fires), then recompute or clear the renewal date (extending
`changed_fields` when the date changes).  Returns the resulting
subscription and the final `changed_fields`. -/
def updatePipeline (today : Date) (sub : Subscription)
    (vres : List (String × PyValue) × List String) :
    Subscription × List String :=
  let consistency := _ensure_status_consistency (applyUpdates sub vres.1)
  let changed₁ := if consistency.2 then addField vres.2 "status" else vres.2
  let renewal := _update_renewal_date today consistency.1 changed₁
    ((vres.1.map Prod.fst).contains "next_renewal_date")
  (renewal.1,
    if renewal.2 then addField changed₁ "next_renewal_date" else changed₁)

/-- `update_subscription`: validate the items, bail out when nothing
valid remains, run the update pipeline, and store when any field
changed. -/
def update_subscription (today : Date) (svc : SubscriptionService)
    (subscription_id : String) (updated_data : List (String × PyValue)) :
    SubscriptionService × Bool :=
  match svc.subscriptions.find? (fun s => s.id = subscription_id) with
  | none => (svc, false)
  | some original =>
    let vres := _validate_and_prepare_updates original updated_data
    if vres.1 = [] then (svc, false)
    else
      let pr := updatePipeline today original vres
      if pr.2 ≠ [] then
        ({ svc with subscriptions := svc.subscriptions.map (fun s =>
            if s.id = subscription_id then pr.1 else s) }, true)
      else (svc, false)

/-- An update item the validator provably ignores (for every
accumulator state). -/
def stepInert (sub : Subscription) (k : String) (v : PyValue) : Prop :=
  ∀ acc, validateStep sub acc (k, v) = acc

/-- The value shapes that can legitimately be stored into a field of
the given declared type. -/
def valueFits : FieldTy → PyValue → Bool
  | .tStr, .pStr _ => true
  | .tOptStr, .pStr _ => true
  | .tOptStr, .pNone => true
  | .tFloat, .pNum _ => true
  | .tCycle, .pCycle _ => true
  | .tStatus, .pStatus _ => true
  | .tDate, .pDate _ => true
  | .tOptDate, .pDate _ => true
  | .tOptDate, .pNone => true
  | _, _ => false

theorem daysInMonth_bounds (y m : Nat) :
    1 ≤ daysInMonth y m ∧ daysInMonth y m ≤ 31 := by
  unfold daysInMonth
  split <;> [split <;> omega; split <;> omega]

theorem Date.le_iff_not_lt (a b : Date) : Date.Le a b ↔ ¬ Date.Lt b a := by
  unfold Date.Le Date.Lt; omega

theorem Date.lt_iff_key (a b : Date) (ha : a.Valid) (hb : b.Valid) :
    Date.Lt a b ↔ a.key < b.key := by
  obtain ⟨ha1, ha2, ha3, ha4⟩ := ha
  obtain ⟨hb1, hb2, hb3, hb4⟩ := hb
  have hma := daysInMonth_bounds a.year a.month
  have hmb := daysInMonth_bounds b.year b.month
  unfold Date.Lt Date.key
  omega

theorem valid_addMonthsClamped (d : Date) (hd : d.Valid) (n : Nat) :
    (addMonthsClamped d n).Valid := by
  obtain ⟨h1, h2, h3, h4⟩ := hd
  have hb := daysInMonth_bounds (d.year + (d.month - 1 + n) / 12) ((d.month - 1 + n) % 12 + 1)
  unfold addMonthsClamped Date.Valid
  simp only
  omega

theorem valid_addYearsClamped (d : Date) (hd : d.Valid) (n : Nat) :
    (addYearsClamped d n).Valid := by
  obtain ⟨h1, h2, h3, h4⟩ := hd
  have hb := daysInMonth_bounds (d.year + n) d.month
  unfold addYearsClamped Date.Valid
  simp only
  omega

theorem valid_succDay (d : Date) (hd : d.Valid) : d.succDay.Valid := by
  obtain ⟨h1, h2, h3, h4⟩ := hd
  have hb := daysInMonth_bounds d.year d.month
  have hb2 := daysInMonth_bounds d.year (d.month + 1)
  have hb3 := daysInMonth_bounds (d.year + 1) 1
  unfold Date.succDay Date.Valid
  split
  · dsimp only; omega
  · split <;> (dsimp only; omega)

theorem valid_addDays (d : Date) (hd : d.Valid) (n : Nat) : (addDays d n).Valid := by
  induction n with
  | zero => exact hd
  | succ k ih => exact valid_succDay _ ih

theorem key_lt_addMonthsClamped (d : Date) (hd : d.Valid) (n : Nat) (hn : 1 ≤ n) :
    d.key < (addMonthsClamped d n).key := by
  obtain ⟨h1, h2, h3, h4⟩ := hd
  have hma := daysInMonth_bounds d.year d.month
  have hmb := daysInMonth_bounds (d.year + (d.month - 1 + n) / 12) ((d.month - 1 + n) % 12 + 1)
  unfold addMonthsClamped Date.key
  simp only
  omega

theorem key_lt_addYearsClamped (d : Date) (hd : d.Valid) (n : Nat) (hn : 1 ≤ n) :
    d.key < (addYearsClamped d n).key := by
  obtain ⟨h1, h2, h3, h4⟩ := hd
  have hma := daysInMonth_bounds d.year d.month
  have hmb := daysInMonth_bounds (d.year + n) d.month
  unfold addYearsClamped Date.key
  simp only
  omega

theorem key_lt_succDay (d : Date) (hd : d.Valid) : d.key < d.succDay.key := by
  obtain ⟨h1, h2, h3, h4⟩ := hd
  have hma := daysInMonth_bounds d.year d.month
  unfold Date.succDay Date.key
  split
  · simp only; omega
  · split <;> (simp only; omega)

theorem key_lt_addDays (d : Date) (hd : d.Valid) (n : Nat) (hn : 1 ≤ n) :
    d.key < (addDays d n).key := by
  induction n with
  | zero => omega
  | succ k ih =>
    have hv := valid_addDays d hd k
    have hs := key_lt_succDay (addDays d k) hv
    rcases Nat.eq_zero_or_pos k with hk | hk
    · subst hk; exact hs
    · exact lt_trans (ih hk) hs

theorem valid_stepCycle (c : BillingCycle) (d : Date) (hd : d.Valid) :
    (stepCycle c d).Valid := by
  cases c with
  | weekly => exact valid_addDays d hd 7
  | monthly => exact valid_addMonthsClamped d hd 1
  | quarterly => exact valid_addMonthsClamped d hd 3
  | yearly => exact valid_addYearsClamped d hd 1
  | bi_annually => exact valid_addYearsClamped d hd 2
  | other => exact hd

theorem key_lt_stepCycle (c : BillingCycle) (hc : c ≠ .other) (d : Date) (hd : d.Valid) :
    d.key < (stepCycle c d).key := by
  cases c with
  | weekly => exact key_lt_addDays d hd 7 (by omega)
  | monthly => exact key_lt_addMonthsClamped d hd 1 (by omega)
  | quarterly => exact key_lt_addMonthsClamped d hd 3 (by omega)
  | yearly => exact key_lt_addYearsClamped d hd 1 (by omega)
  | bi_annually => exact key_lt_addYearsClamped d hd 2 (by omega)
  | other => exact absurd rfl hc

theorem advanceWhileLt_valid (c : BillingCycle) (today : Date) (fuel : Nat) :
    ∀ d : Date, d.Valid → (advanceWhileLt c today fuel d).Valid := by
  induction fuel with
  | zero => intro d hd; exact hd
  | succ n ih =>
    intro d hd
    unfold advanceWhileLt
    by_cases h : Date.Lt d today
    · rw [if_pos h]
      exact ih _ (valid_stepCycle c d hd)
    · rw [if_neg h]
      exact hd

theorem advanceWhileLt_not_lt (c : BillingCycle) (hc : c ≠ .other)
    (today : Date) (ht : today.Valid) (fuel : Nat) :
    ∀ d : Date, d.Valid → today.key ≤ d.key + fuel →
      ¬ Date.Lt (advanceWhileLt c today fuel d) today := by
  induction fuel with
  | zero =>
    intro d hd hfuel
    unfold advanceWhileLt
    rw [Date.lt_iff_key d today hd ht]
    omega
  | succ n ih =>
    intro d hd hfuel
    unfold advanceWhileLt
    by_cases h : Date.Lt d today
    · rw [if_pos h]
      have hstep := key_lt_stepCycle c hc d hd
      exact ih _ (valid_stepCycle c d hd) (by omega)
    · rw [if_neg h]
      exact h

theorem renewalBase_valid (start_date : Date) (last_renewal : Option Date)
    (hs : start_date.Valid) (hl : ∀ l ∈ last_renewal, l.Valid) :
    (renewalBase start_date last_renewal).Valid := by
  unfold renewalBase
  cases last_renewal with
  | none => exact hs
  | some l =>
    have hlv : l.Valid := hl l rfl
    dsimp only
    by_cases h : Date.Lt start_date l
    · rw [if_pos h]; exact hlv
    · rw [if_neg h]; exact hs

/-- C1: for all valid `today`, `start_date` and optional `last_renewal`,
`calculate_next_renewal_date` returns a date for every billing cycle
other than `other`, any returned date is on or after `today`, and for
the `other` cycle it signals an error instead of returning a date. -/
theorem calculate_next_renewal_date_spec
    (today start_date : Date) (cycle : BillingCycle) (last_renewal : Option Date)
    (ht : today.Valid) (hs : start_date.Valid)
    (hl : ∀ l ∈ last_renewal, l.Valid) :
    (cycle ≠ .other →
      ∃ d, calculate_next_renewal_date today start_date cycle last_renewal = .ok d) ∧
    (∀ d, calculate_next_renewal_date today start_date cycle last_renewal = .ok d →
      Date.Le today d) ∧
    (cycle = .other →
      ∃ msg, calculate_next_renewal_date today start_date cycle last_renewal = .error msg) := by
  have hbv := renewalBase_valid start_date last_renewal hs hl
  refine ⟨?_, ?_, ?_⟩
  · intro hc
    unfold calculate_next_renewal_date
    rw [if_neg hc]
    exact ⟨_, rfl⟩
  · intro d hd
    unfold calculate_next_renewal_date at hd
    by_cases hc : cycle = .other
    · rw [if_pos hc] at hd; cases hd
    · rw [if_neg hc] at hd
      injection hd with hd
      subst hd
      rw [Date.le_iff_not_lt]
      exact advanceWhileLt_not_lt cycle hc today ht (today.key + 1) _
        (valid_stepCycle _ _ hbv) (by omega)
  · intro hc
    unfold calculate_next_renewal_date
    rw [if_pos hc]
    exact ⟨_, rfl⟩

/-- C1 witness: the theorem applied at concrete inputs, both for a
non-`other` cycle (monthly, with a `last_renewal`) and for `other`. -/
theorem calculate_next_renewal_date_spec_witness :
    Date.Le ⟨2024, 7, 15⟩ ⟨2024, 7, 29⟩ ∧
    (∃ msg, calculate_next_renewal_date ⟨2024, 7, 15⟩ ⟨2024, 1, 31⟩ .other none
      = .error msg) :=
  ⟨(calculate_next_renewal_date_spec ⟨2024, 7, 15⟩ ⟨2024, 1, 31⟩ .monthly
      (some ⟨2024, 3, 29⟩) (by decide) (by decide)
      (fun l h => by cases h; decide)).2.1 ⟨2024, 7, 29⟩ (by decide),
   (calculate_next_renewal_date_spec ⟨2024, 7, 15⟩ ⟨2024, 1, 31⟩ .other
      none (by decide) (by decide) (fun l h => by cases h)).2.2 rfl⟩

/-- C2 counterexample: the annual-occurrence factor for `bi_annually` is
`2`, not `0.5`, so a bi-annual subscription's annual cost is twice (not
half) its per-cycle cost: at cost 60 the annualized value is 120, where
the claim demands 30. -/
theorem annual_factor_bi_annually_counterexample :
    _get_annual_factor .bi_annually = 2 ∧ (2 : ℚ) ≠ 0.5 ∧
    _normalize_cost_to_period 60 .bi_annually "annually" = .ok 120 ∧
    (120 : ℚ) ≠ 30 := by
  refine ⟨rfl, by norm_num, ?_, by norm_num⟩
  unfold _normalize_cost_to_period
  rw [if_neg (by decide), if_pos (by decide)]
  norm_num [_get_annual_factor]

/-- C2 amended: the factor maps monthly to 12, yearly to 1, quarterly to
4, weekly to 52, `bi_annually` to 2 and `other` to 0, so a bi-annual
subscription's annual cost equals twice its per-cycle cost, and an
`other`-cycle subscription normalizes to zero for both periods and
leaves the recurring-cost aggregate unchanged. -/
theorem annual_factor_spec :
    _get_annual_factor .monthly = 12 ∧ _get_annual_factor .yearly = 1 ∧
    _get_annual_factor .quarterly = 4 ∧ _get_annual_factor .weekly = 52 ∧
    _get_annual_factor .bi_annually = 2 ∧ _get_annual_factor .other = 0 ∧
    (∀ cost : ℚ, _normalize_cost_to_period cost .bi_annually "annually" = .ok (cost * 2)) ∧
    (∀ cost : ℚ, _normalize_cost_to_period cost .other "monthly" = .ok 0 ∧
      _normalize_cost_to_period cost .other "annually" = .ok 0) ∧
    (∀ (svc : SubscriptionService) (sub : Subscription) (period : String),
      sub.billing_cycle = .other →
      calculate_cost_per_period
        { svc with subscriptions := svc.subscriptions ++ [sub] } period =
      calculate_cost_per_period svc period) := by
  refine ⟨rfl, rfl, rfl, rfl, rfl, rfl, ?_, ?_, ?_⟩
  · intro cost
    unfold _normalize_cost_to_period
    rw [if_neg (by decide), if_pos (by decide)]
    rfl
  · intro cost
    constructor
    · unfold _normalize_cost_to_period
      rw [if_pos (by decide)]
      norm_num [_get_annual_factor]
    · unfold _normalize_cost_to_period
      rw [if_neg (by decide), if_pos (by decide)]
      norm_num [_get_annual_factor]
  · intro svc sub period hother
    have hzero : ∀ p, periodContribution p sub = 0 := by
      intro p
      unfold periodContribution _normalize_cost_to_period
      rw [hother]
      simp only [_get_annual_factor, mul_zero]
      split_ifs <;> simp
    unfold calculate_cost_per_period
    by_cases hp : pyLower period = "monthly" ∨ pyLower period = "annually"
    · rw [if_pos hp, if_pos hp]
      simp [hzero]
    · rw [if_neg hp, if_neg hp]

/-- C2 amended witness: the amended theorem applied at concrete inputs. -/
theorem annual_factor_spec_witness :
    calculate_cost_per_period
      { categories := ["Software"], budget_global := none, budget_categories := [],
        subscriptions :=
          [{ name := "A", cost := 10, billing_cycle := .monthly,
             start_date := ⟨2024, 1, 1⟩ },
           { name := "B", cost := 50, billing_cycle := .other,
             start_date := ⟨2024, 1, 1⟩ }] } "monthly" =
    calculate_cost_per_period
      { categories := ["Software"], budget_global := none, budget_categories := [],
        subscriptions :=
          [{ name := "A", cost := 10, billing_cycle := .monthly,
             start_date := ⟨2024, 1, 1⟩ }] } "monthly" :=
  annual_factor_spec.2.2.2.2.2.2.2.2
    { categories := ["Software"], budget_global := none, budget_categories := [],
      subscriptions :=
        [{ name := "A", cost := 10, billing_cycle := .monthly,
           start_date := ⟨2024, 1, 1⟩ }] }
    { name := "B", cost := 50, billing_cycle := .other, start_date := ⟨2024, 1, 1⟩ }
    "monthly" rfl

theorem calculate_next_renewal_date_ok (today start_date : Date)
    (cycle : BillingCycle) (last_renewal : Option Date) (hc : cycle ≠ .other) :
    ∃ d, calculate_next_renewal_date today start_date cycle last_renewal = .ok d := by
  unfold calculate_next_renewal_date
  rw [if_neg hc]
  exact ⟨_, rfl⟩

theorem addStored_status (today : Date) (sub : Subscription) :
    (addStored today sub).status = sub.status := by
  unfold addStored
  split
  · split
    · rfl
    · split <;> rfl
  · rfl

theorem _recalculate_sub_status (today : Date) (sub : Subscription) :
    (_recalculate_sub today sub).status = sub.status := by
  unfold _recalculate_sub
  split
  · rfl
  · split
    · rfl
    · split <;> rfl

theorem _update_renewal_date_status (today : Date) (sub : Subscription)
    (changed_fields : List String) (manually_set : Bool) :
    (_update_renewal_date today sub changed_fields manually_set).1.status = sub.status := by
  unfold _update_renewal_date
  split <;> rfl

theorem updateRenewalValue_none (today : Date) (sub : Subscription)
    (changed_fields : List String) (manually_set : Bool)
    (h : sub.status = .trial ∨ (manually_set = false ∧ sub.status = .cancelled)) :
    updateRenewalValue today sub changed_fields manually_set = none := by
  unfold updateRenewalValue
  rcases h with h | ⟨hm, h⟩
  · rw [if_neg (by simp [h]), if_pos h]
  · subst hm
    rw [if_neg (by simp), if_neg (by simp [h]), if_pos h]

theorem _update_renewal_date_clears (today : Date) (sub : Subscription)
    (changed_fields : List String) (manually_set : Bool)
    (h : sub.status = .trial ∨ (manually_set = false ∧ sub.status = .cancelled)) :
    (_update_renewal_date today sub changed_fields manually_set).1.next_renewal_date
      = none := by
  have hval := updateRenewalValue_none today sub changed_fields manually_set h
  unfold _update_renewal_date
  rw [hval]
  split
  · rfl
  · next hne => push_neg at hne; exact hne

/-- C3 counterexample: a validly constructed `cancelled` subscription
(monthly cycle, start 2024-01-15) added on 2024-07-10 is stored with
`next_renewal_date = 2024-07-15`, not `None`; the load-time
recalculation equally computes a renewal date for a stored `cancelled`
subscription. -/
theorem cancelled_renewal_counterexample :
    Subscription.postInit
      { name := "X", cost := 5, billing_cycle := .monthly,
        start_date := ⟨2024, 1, 15⟩, status := .cancelled, id := "s1" } =
      .ok { name := "X", cost := 5, billing_cycle := .monthly,
            start_date := ⟨2024, 1, 15⟩, status := .cancelled, id := "s1" } ∧
    add_subscription ⟨2024, 7, 10⟩
      { categories := [], budget_global := none, budget_categories := [],
        subscriptions := [] }
      { name := "X", cost := 5, billing_cycle := .monthly,
        start_date := ⟨2024, 1, 15⟩, status := .cancelled, id := "s1" } =
      .ok { categories := [], budget_global := none, budget_categories := [],
            subscriptions :=
              [{ name := "X", cost := 5, billing_cycle := .monthly,
                 start_date := ⟨2024, 1, 15⟩, status := .cancelled, id := "s1",
                 next_renewal_date := some ⟨2024, 7, 15⟩ }] } ∧
    _recalculate_sub ⟨2024, 7, 10⟩
      { name := "X", cost := 5, billing_cycle := .monthly,
        start_date := ⟨2024, 1, 15⟩, status := .cancelled, id := "s1" } =
      { name := "X", cost := 5, billing_cycle := .monthly,
        start_date := ⟨2024, 1, 15⟩, status := .cancelled, id := "s1",
        next_renewal_date := some ⟨2024, 7, 15⟩ } := by
  refine ⟨?_, ?_, ?_⟩ <;> decide

/-- C3 amended: after add, update and load-recalculation every
`trial`-status subscription has `next_renewal_date = None`; the update
path also forces `None` for `cancelled` subscriptions when no manual
`next_renewal_date` was supplied in the same update; but `add` and the
load-recalculation treat `cancelled` subscriptions like active ones and
store a computed renewal date for them. -/
theorem renewal_invariant_amended :
    (∀ (today : Date) (svc : SubscriptionService) (sub : Subscription)
        (svc' : SubscriptionService),
      add_subscription today svc sub = .ok svc' →
      ∃ sub', svc'.subscriptions = svc.subscriptions ++ [sub'] ∧
        sub'.status = sub.status ∧
        (sub'.status = .trial → sub'.next_renewal_date = none) ∧
        (sub.status ≠ .trial → sub.billing_cycle ≠ .other →
          ∃ d, sub'.next_renewal_date = some d)) ∧
    (∀ (today : Date) (svc : SubscriptionService),
      ∀ s ∈ (_recalculate_all_renewal_dates today svc).subscriptions,
        s.status = .trial → s.next_renewal_date = none) ∧
    (∀ (today : Date) (sub : Subscription) (changed_fields : List String)
        (manually_set : Bool),
      ((_update_renewal_date today sub changed_fields manually_set).1.status = .trial →
        (_update_renewal_date today sub changed_fields manually_set).1.next_renewal_date
          = none) ∧
      (manually_set = false →
        (_update_renewal_date today sub changed_fields manually_set).1.status = .cancelled →
        (_update_renewal_date today sub changed_fields manually_set).1.next_renewal_date
          = none)) := by
  refine ⟨?_, ?_, ?_⟩
  · intro today svc sub svc' hadd
    unfold add_subscription at hadd
    by_cases hdup : (svc.subscriptions.map Subscription.id).contains sub.id
    · rw [if_pos hdup] at hadd; cases hadd
    · rw [if_neg hdup] at hadd
      injection hadd with hadd
      subst hadd
      refine ⟨addStored today sub, rfl, addStored_status today sub, ?_, ?_⟩
      · intro h
        rw [addStored_status] at h
        unfold addStored
        rw [if_neg (by simp [h])]
      · intro htr hoth
        unfold addStored
        rw [if_pos htr, if_neg hoth]
        have hok := (calculate_next_renewal_date_ok today sub.start_date
          sub.billing_cycle none hoth)
        obtain ⟨d, hd⟩ := hok
        rw [hd]
        exact ⟨d, rfl⟩
  · intro today svc s hs htrial
    unfold _recalculate_all_renewal_dates at hs
    dsimp only at hs
    obtain ⟨t, ht, rfl⟩ := List.mem_map.mp hs
    rw [_recalculate_sub_status] at htrial
    unfold _recalculate_sub
    rw [if_pos htrial]
  · intro today sub changed_fields manually_set
    constructor
    · intro hst
      rw [_update_renewal_date_status] at hst
      exact _update_renewal_date_clears today sub changed_fields manually_set (.inl hst)
    · intro hm hst
      rw [_update_renewal_date_status] at hst
      exact _update_renewal_date_clears today sub changed_fields manually_set
        (.inr ⟨hm, hst⟩)

/-- C3 amended witness: adding a trial subscription on 2024-07-10 stores
it with `next_renewal_date = None`. -/
theorem renewal_invariant_amended_witness :
    ∃ sub',
      ({ categories := [], budget_global := none, budget_categories := [],
         subscriptions :=
           [{ name := "T", cost := 0, billing_cycle := .monthly,
              start_date := ⟨2024, 1, 1⟩, status := .trial, id := "t1",
              trial_end_date := some ⟨2024, 2, 1⟩ }] } :
        SubscriptionService).subscriptions =
        ([] : List Subscription) ++ [sub'] ∧
      sub'.status = SubscriptionStatus.trial ∧
      (sub'.status = .trial → sub'.next_renewal_date = none) ∧
      (SubscriptionStatus.trial ≠ SubscriptionStatus.trial →
        BillingCycle.monthly ≠ BillingCycle.other →
        ∃ d, sub'.next_renewal_date = some d) :=
  renewal_invariant_amended.1 ⟨2024, 7, 10⟩
    { categories := [], budget_global := none, budget_categories := [],
      subscriptions := [] }
    { name := "T", cost := 0, billing_cycle := .monthly,
      start_date := ⟨2024, 1, 1⟩, status := .trial, id := "t1",
      trial_end_date := some ⟨2024, 2, 1⟩ }
    { categories := [], budget_global := none, budget_categories := [],
      subscriptions :=
        [{ name := "T", cost := 0, billing_cycle := .monthly,
           start_date := ⟨2024, 1, 1⟩, status := .trial, id := "t1",
           trial_end_date := some ⟨2024, 2, 1⟩ }] }
    (by decide)

/-- C9: `get_upcoming_events` reports renewal events only for
subscriptions whose status is none of `trial`, `cancelled` or
`inactive`; in particular an `inactive` subscription never yields a
renewal event, whatever its `next_renewal_date`. -/
theorem get_upcoming_events_inactive_excluded (today : Date)
    (svc : SubscriptionService) (days_ahead : Nat) :
    ∀ e ∈ get_upcoming_events today svc days_ahead, ∀ d, e.2 = .renews d →
      e.1.status ≠ .inactive ∧ e.1.status ≠ .trial ∧ e.1.status ≠ .cancelled := by
  intro e he d hkind
  unfold get_upcoming_events at he
  rw [List.mem_mergeSort] at he
  obtain ⟨sub, _, hmem⟩ := List.mem_flatMap.mp he
  unfold upcomingEventsOf at hmem
  rw [List.mem_append] at hmem
  rcases hmem with h | h
  · rcases hr : sub.next_renewal_date with _ | r
    · rw [hr] at h; cases h
    · rw [hr] at h
      dsimp only at h
      by_cases hp : (sub.status ≠ .trial ∧ sub.status ≠ .cancelled ∧ sub.status ≠ .inactive) ∧
          Date.Le today r ∧ Date.Le r (addDays today days_ahead)
      · rw [if_pos hp] at h
        rcases List.mem_singleton.mp h with rfl
        exact ⟨hp.1.2.2, hp.1.1, hp.1.2.1⟩
      · rw [if_neg hp] at h; cases h
  · rcases ht : sub.trial_end_date with _ | t
    · rw [ht] at h; cases h
    · rw [ht] at h
      dsimp only at h
      by_cases hp : sub.status = .trial ∧ Date.Le today t ∧
          Date.Le t (addDays today days_ahead)
      · rw [if_pos hp] at h
        rcases List.mem_singleton.mp h with rfl
        cases hkind
      · rw [if_neg hp] at h; cases h

/-- C9 witness: a service with one active subscription renewing inside
the window yields its renewal event, and the theorem applies to it. -/
theorem get_upcoming_events_inactive_excluded_witness :
    ({ name := "A", cost := 10, billing_cycle := .monthly,
       start_date := ⟨2024, 1, 1⟩, status := .active, id := "a1",
       next_renewal_date := some ⟨2024, 7, 12⟩ } : Subscription).status
      ≠ SubscriptionStatus.inactive :=
  (get_upcoming_events_inactive_excluded ⟨2024, 7, 10⟩
    { categories := [], budget_global := none, budget_categories := [],
      subscriptions :=
        [{ name := "A", cost := 10, billing_cycle := .monthly,
           start_date := ⟨2024, 1, 1⟩, status := .active, id := "a1",
           next_renewal_date := some ⟨2024, 7, 12⟩ }] } 7
    ({ name := "A", cost := 10, billing_cycle := .monthly,
       start_date := ⟨2024, 1, 1⟩, status := .active, id := "a1",
       next_renewal_date := some ⟨2024, 7, 12⟩ }, .renews ⟨2024, 7, 12⟩)
    (List.mem_mergeSort.mpr (by decide)) ⟨2024, 7, 12⟩ rfl).1

/-- C10 counterexample: `"A "` is a non-empty name other than
`"Uncategorized"`, but `delete_category "A "` strips it to `"A"` and
therefore leaves a subscription whose category is exactly `"A "`
untouched (and returns `false`), where the claim demands that the
subscription be relabelled `"Uncategorized"`. -/
theorem delete_category_whitespace_counterexample :
    ("A " ≠ "") ∧ ("A " ≠ "Uncategorized") ∧
    (delete_category
      { categories := [], budget_global := none, budget_categories := [],
        subscriptions :=
          [{ name := "S", cost := 1, billing_cycle := .monthly,
             start_date := ⟨2024, 1, 1⟩, category := "A ", id := "s1" }] }
      "A ").1.subscriptions =
      [{ name := "S", cost := 1, billing_cycle := .monthly,
         start_date := ⟨2024, 1, 1⟩, category := "A ", id := "s1" }] ∧
    ({ name := "S", cost := 1, billing_cycle := .monthly,
       start_date := ⟨2024, 1, 1⟩, category := "A ", id := "s1" } :
      Subscription).category ≠ "Uncategorized" := by
  refine ⟨by decide, by decide, ?_, by decide⟩
  decide

/-- C10 amended: `delete_category(c)` first strips `c`; when the
stripped name is empty or `"Uncategorized"` it returns `false` and
changes nothing; otherwise it relabels exactly the subscriptions whose
category equals the stripped name to `"Uncategorized"`, leaving every
other field and every other subscription unchanged. -/
theorem delete_category_spec (svc : SubscriptionService) (c : String) :
    (pyStrip c = "" ∨ pyStrip c = "Uncategorized" →
      delete_category svc c = (svc, false)) ∧
    (pyStrip c ≠ "" → pyStrip c ≠ "Uncategorized" →
      (delete_category svc c).1.subscriptions =
        svc.subscriptions.map (fun sub =>
          if sub.category = pyStrip c then { sub with category := "Uncategorized" }
          else sub)) := by
  constructor
  · intro h
    unfold delete_category
    rw [if_pos h]
  · intro h1 h2
    unfold delete_category
    rw [if_neg (by simp [h1, h2])]

/-- C10 amended witness: the theorem applied with the name `"Streaming"`
to a two-subscription service. -/
theorem delete_category_spec_witness :
    (delete_category
      { categories := ["Streaming"], budget_global := none, budget_categories := [],
        subscriptions :=
          [{ name := "S", cost := 1, billing_cycle := .monthly,
             start_date := ⟨2024, 1, 1⟩, category := "Streaming", id := "s1" },
           { name := "R", cost := 2, billing_cycle := .yearly,
             start_date := ⟨2024, 2, 1⟩, category := "Software", id := "s2" }] }
      "Streaming").1.subscriptions =
      ([{ name := "S", cost := 1, billing_cycle := .monthly,
          start_date := ⟨2024, 1, 1⟩, category := "Streaming", id := "s1" },
        { name := "R", cost := 2, billing_cycle := .yearly,
          start_date := ⟨2024, 2, 1⟩, category := "Software", id := "s2" }] :
        List Subscription).map (fun sub =>
          if sub.category = pyStrip "Streaming" then
            { sub with category := "Uncategorized" }
          else sub) :=
  (delete_category_spec
    { categories := ["Streaming"], budget_global := none, budget_categories := [],
      subscriptions :=
        [{ name := "S", cost := 1, billing_cycle := .monthly,
           start_date := ⟨2024, 1, 1⟩, category := "Streaming", id := "s1" },
         { name := "R", cost := 2, billing_cycle := .yearly,
           start_date := ⟨2024, 2, 1⟩, category := "Software", id := "s2" }] }
    "Streaming").2 (by decide) (by decide)

theorem lookupQ_append (m1 m2 : List (String × ℚ)) (k : String) :
    lookupQ (m1 ++ m2) k =
      match lookupQ m1 k with
      | some v => some v
      | none => lookupQ m2 k := by
  induction m1 with
  | nil => rfl
  | cons kv rest ih =>
    obtain ⟨k', v'⟩ := kv
    by_cases h : k' = k
    · simp [lookupQ, h]
    · simp only [List.cons_append, lookupQ, if_neg h]
      exact ih

theorem lookupQ_bump_ne_none (m : List (String × ℚ)) (k key : String) (v : ℚ)
    (h : lookupQ (bump m key v) k ≠ none) :
    lookupQ m k ≠ none ∨ k = key := by
  induction m with
  | nil =>
    unfold bump lookupQ at h
    by_cases hk : key = k
    · right; exact hk.symm
    · rw [if_neg hk] at h; exact absurd rfl h
  | cons kv rest ih =>
    obtain ⟨k', v'⟩ := kv
    unfold bump at h
    by_cases hk : k' = key
    · rw [if_pos hk] at h
      unfold lookupQ at h ⊢
      by_cases hkk : k' = k
      · left; rw [if_pos hkk]; exact Option.some_ne_none v'
      · rw [if_neg hkk] at h ⊢; exact .inl h
    · rw [if_neg hk] at h
      unfold lookupQ at h ⊢
      by_cases hkk : k' = k
      · left; rw [if_pos hkk]; exact Option.some_ne_none v'
      · rw [if_neg hkk] at h ⊢; exact ih h

theorem lookupQ_categoryStep_ne_none (p : String) (m : List (String × ℚ))
    (sub : Subscription) (k : String)
    (h : lookupQ (categoryStep p m sub) k ≠ none) :
    lookupQ m k ≠ none ∨
      (sub.status = .active ∧ effectiveCategory sub = k) := by
  unfold categoryStep at h
  by_cases ha : sub.status = .active
  · rw [if_pos ha] at h
    rcases hn : _normalize_cost_to_period sub.cost sub.billing_cycle p with v | v
    · rw [hn] at h; left; exact h
    · rw [hn] at h
      rcases lookupQ_bump_ne_none m k (effectiveCategory sub) v h with h' | h'
      · left; exact h'
      · right; exact ⟨ha, h'.symm⟩
  · rw [if_neg ha] at h; left; exact h

theorem lookupQ_fillStep_ne_none (m : List (String × ℚ)) (c k : String)
    (h : lookupQ (fillStep m c) k ≠ none) :
    lookupQ m k ≠ none ∨ k = c := by
  unfold fillStep at h
  by_cases hc : lookupQ m c = none
  · rw [if_pos hc] at h
    rw [lookupQ_append] at h
    rcases hm : lookupQ m k with _ | v
    · rw [hm] at h
      unfold lookupQ at h
      by_cases hck : c = k
      · right; exact hck.symm
      · rw [if_neg hck] at h; exact absurd rfl h
    · left; exact Option.some_ne_none v
  · rw [if_neg hc] at h; left; exact h

theorem lookupQ_fillStep_preserve (m : List (String × ℚ)) (c k : String)
    (h : lookupQ m k ≠ none) : lookupQ (fillStep m c) k ≠ none := by
  unfold fillStep
  by_cases hc : lookupQ m c = none
  · rw [if_pos hc, lookupQ_append]
    rcases hm : lookupQ m k with _ | v
    · exact absurd hm h
    · exact Option.some_ne_none v
  · rw [if_neg hc]; exact h

theorem lookupQ_fillFold_ne_none (cats : List String) (m : List (String × ℚ))
    (k : String) (h : lookupQ (cats.foldl fillStep m) k ≠ none) :
    lookupQ m k ≠ none ∨ k ∈ cats := by
  induction cats generalizing m with
  | nil => left; exact h
  | cons c rest ih =>
    rw [List.foldl_cons] at h
    rcases ih (fillStep m c) h with h' | h'
    · rcases lookupQ_fillStep_ne_none m c k h' with h'' | h''
      · left; exact h''
      · right; exact h'' ▸ List.mem_cons_self c rest
    · right; exact List.mem_cons_of_mem c h'

theorem lookupQ_fillFold_preserve (cats : List String) (m : List (String × ℚ))
    (k : String) (h : lookupQ m k ≠ none) :
    lookupQ (cats.foldl fillStep m) k ≠ none := by
  induction cats generalizing m with
  | nil => exact h
  | cons c rest ih =>
    rw [List.foldl_cons]
    exact ih (fillStep m c) (lookupQ_fillStep_preserve m c k h)

theorem lookupQ_fillFold_mem (cats : List String) (m : List (String × ℚ))
    (k : String) (h : k ∈ cats) : lookupQ (cats.foldl fillStep m) k ≠ none := by
  induction cats generalizing m with
  | nil => cases h
  | cons c rest ih =>
    rw [List.foldl_cons]
    rcases List.mem_cons.mp h with rfl | h'
    · have hstep : lookupQ (fillStep m k) k ≠ none := by
        unfold fillStep
        by_cases hc : lookupQ m k = none
        · rw [if_pos hc, lookupQ_append, hc]
          unfold lookupQ
          rw [if_pos rfl]
          exact Option.some_ne_none 0
        · rw [if_neg hc]; exact hc
      exact lookupQ_fillFold_preserve rest (fillStep m k) k hstep
    · exact ih (fillStep m c) h'

theorem sumValues_append (m1 m2 : List (String × ℚ)) :
    sumValues (m1 ++ m2) = sumValues m1 + sumValues m2 := by
  induction m1 with
  | nil => simp [sumValues]
  | cons kv rest ih =>
    simp only [List.cons_append, sumValues, List.append_eq, ih]
    ring

theorem sumValues_bump (m : List (String × ℚ)) (k : String) (v : ℚ) :
    sumValues (bump m k v) = sumValues m + v := by
  induction m with
  | nil => simp [bump, sumValues]
  | cons kv rest ih =>
    obtain ⟨k', v'⟩ := kv
    unfold bump
    by_cases h : k' = k
    · rw [if_pos h]
      simp only [sumValues]
      ring
    · rw [if_neg h]
      simp only [sumValues, ih]
      ring

theorem sumValues_categoryStep (p : String) (m : List (String × ℚ))
    (sub : Subscription) :
    sumValues (categoryStep p m sub) = sumValues m + periodContribution p sub := by
  unfold categoryStep periodContribution
  by_cases ha : sub.status = .active
  · rw [if_pos ha, if_pos ha]
    cases hn : _normalize_cost_to_period sub.cost sub.billing_cycle p with
    | ok v => rw [sumValues_bump]
    | error e => simp
  · rw [if_neg ha, if_neg ha]
    simp

theorem sumValues_categoryFold (p : String) (subs : List Subscription) :
    ∀ m, sumValues (subs.foldl (categoryStep p) m) =
      sumValues m + (subs.map (periodContribution p)).sum := by
  induction subs with
  | nil => intro m; simp
  | cons sub rest ih =>
    intro m
    rw [List.foldl_cons, ih, sumValues_categoryStep]
    simp only [List.map_cons, List.sum_cons]
    ring

theorem sumValues_fillStep (m : List (String × ℚ)) (c : String) :
    sumValues (fillStep m c) = sumValues m := by
  unfold fillStep
  split
  · rw [sumValues_append]; simp [sumValues]
  · rfl

theorem sumValues_fillFold (cats : List String) :
    ∀ m, sumValues (cats.foldl fillStep m) = sumValues m := by
  induction cats with
  | nil => intro m; rfl
  | cons c rest ih =>
    intro m
    rw [List.foldl_cons, ih, sumValues_fillStep]

theorem allNonneg_bump (m : List (String × ℚ)) (k : String) (v : ℚ)
    (hm : AllNonneg m) (hv : 0 ≤ v) : AllNonneg (bump m k v) := by
  induction m with
  | nil =>
    intro kv hkv
    rcases List.mem_singleton.mp hkv with rfl
    exact hv
  | cons kv' rest ih =>
    obtain ⟨k', v'⟩ := kv'
    unfold bump
    by_cases h : k' = k
    · rw [if_pos h]
      intro kv hkv
      rcases List.mem_cons.mp hkv with rfl | hkv'
      · exact add_nonneg (hm (k', v') (List.mem_cons_self _ _)) hv
      · exact hm kv (List.mem_cons_of_mem _ hkv')
    · rw [if_neg h]
      intro kv hkv
      rcases List.mem_cons.mp hkv with rfl | hkv'
      · exact hm (k', v') (List.mem_cons_self _ _)
      · exact ih (fun x hx => hm x (List.mem_cons_of_mem _ hx)) kv hkv'

theorem annual_factor_nonneg (cycle : BillingCycle) : 0 ≤ _get_annual_factor cycle := by
  cases cycle <;> norm_num [_get_annual_factor]

theorem normalize_ok_nonneg (cost : ℚ) (cycle : BillingCycle) (p : String) (v : ℚ)
    (hc : 0 ≤ cost) (h : _normalize_cost_to_period cost cycle p = .ok v) : 0 ≤ v := by
  unfold _normalize_cost_to_period at h
  split_ifs at h with h1 hpos h2
  · injection h with h
    subst h
    exact div_nonneg (le_of_lt hpos) (by norm_num)
  · injection h with h
    subst h
    exact le_refl 0
  · injection h with h
    subst h
    exact mul_nonneg hc (annual_factor_nonneg cycle)

theorem allNonneg_categoryStep (p : String) (m : List (String × ℚ))
    (sub : Subscription) (hm : AllNonneg m) (hc : 0 ≤ sub.cost) :
    AllNonneg (categoryStep p m sub) := by
  unfold categoryStep
  by_cases ha : sub.status = .active
  · rw [if_pos ha]
    cases hn : _normalize_cost_to_period sub.cost sub.billing_cycle p with
    | ok v => exact allNonneg_bump m _ v hm (normalize_ok_nonneg sub.cost _ p v hc hn)
    | error e => exact hm
  · rw [if_neg ha]; exact hm

theorem allNonneg_categoryFold (p : String) (subs : List Subscription)
    (hcost : ∀ sub ∈ subs, 0 ≤ sub.cost) :
    ∀ m, AllNonneg m → AllNonneg (subs.foldl (categoryStep p) m) := by
  induction subs with
  | nil => intro m hm; exact hm
  | cons sub rest ih =>
    intro m hm
    rw [List.foldl_cons]
    exact ih (fun s hs => hcost s (List.mem_cons_of_mem _ hs)) _
      (allNonneg_categoryStep p m sub hm (hcost sub (List.mem_cons_self _ _)))

theorem allNonneg_append_zero (m : List (String × ℚ)) (c : String)
    (hm : AllNonneg m) : AllNonneg (m ++ [(c, 0)]) := by
  intro kv hkv
  rcases List.mem_append.mp hkv with h | h
  · exact hm kv h
  · rcases List.mem_singleton.mp h with rfl
    exact le_refl 0

theorem allNonneg_fillFold (cats : List String) :
    ∀ m, AllNonneg m → AllNonneg (cats.foldl fillStep m) := by
  induction cats with
  | nil => intro m hm; exact hm
  | cons c rest ih =>
    intro m hm
    rw [List.foldl_cons]
    refine ih _ ?_
    unfold fillStep
    split
    · exact allNonneg_append_zero m c hm
    · exact hm

theorem lookupQ_nonneg (m : List (String × ℚ)) (k : String) (v : ℚ)
    (hm : AllNonneg m) (h : lookupQ m k = some v) : 0 ≤ v := by
  induction m with
  | nil => cases h
  | cons kv rest ih =>
    obtain ⟨k', v'⟩ := kv
    unfold lookupQ at h
    by_cases hk : k' = k
    · rw [if_pos hk] at h
      injection h with h
      rw [← h]
      exact hm (k', v') (List.mem_cons_self _ _)
    · rw [if_neg hk] at h
      exact ih (fun x hx => hm x (List.mem_cons_of_mem _ hx)) h

theorem lookupQ_categoryFold_ne_none (p : String) (subs : List Subscription)
    (k : String) :
    ∀ m, lookupQ (subs.foldl (categoryStep p) m) k ≠ none →
      lookupQ m k ≠ none ∨
        ∃ sub ∈ subs, sub.status = .active ∧ effectiveCategory sub = k := by
  induction subs with
  | nil => intro m h; left; exact h
  | cons sub rest ih =>
    intro m h
    rw [List.foldl_cons] at h
    rcases ih _ h with h' | ⟨s, hs, h'⟩
    · rcases lookupQ_categoryStep_ne_none p m sub k h' with h'' | h''
      · left; exact h''
      · right; exact ⟨sub, List.mem_cons_self _ _, h''⟩
    · right; exact ⟨s, List.mem_cons_of_mem _ hs, h'⟩

theorem effectiveCategory_blank (sub : Subscription)
    (h : sub.category = "" ∨ pyStrip sub.category = "") :
    effectiveCategory sub = "Uncategorized" := by
  unfold effectiveCategory
  rcases h with h | h
  · rw [if_neg (by simp [h])]
  · rw [if_neg (by simp [h])]

/-- C6 counterexample: a service whose budget has a key
`"Uncategorized"` (allowed by `set_budget`) and no subscriptions at all:
`calculate_cost_per_category('monthly')` contains the key
`"Uncategorized"` although no active subscription lacks a category. -/
theorem cost_per_category_uncategorized_counterexample :
    calculate_cost_per_category
      { categories := [], budget_global := none,
        budget_categories := [("Uncategorized", some 10)], subscriptions := [] }
      "monthly" = .ok [("Uncategorized", 0)] ∧
    ({ categories := [], budget_global := none,
       budget_categories := [("Uncategorized", some 10)], subscriptions := [] } :
      SubscriptionService).subscriptions = [] := by
  constructor
  · decide
  · rfl

/-- C6 amended: for `period` in {monthly, annually},
`calculate_cost_per_category` returns a mapping that contains every
category known to the Service with a value ≥ 0, contains the key
`"Uncategorized"` only if `"Uncategorized"` is itself a known category
or some active subscription's category is blank or equal (after
stripping) to `"Uncategorized"`, and whose values sum exactly to
`calculate_cost_per_period(period)` over the same subscription set. -/
theorem calculate_cost_per_category_spec (svc : SubscriptionService)
    (period : String) (hp : period = "monthly" ∨ period = "annually")
    (hcost : ∀ sub ∈ svc.subscriptions, 0 ≤ sub.cost) :
    ∃ m, calculate_cost_per_category svc period = .ok m ∧
      (∀ c ∈ get_categories svc, ∃ v, lookupQ m c = some v ∧ 0 ≤ v) ∧
      (lookupQ m "Uncategorized" ≠ none →
        "Uncategorized" ∈ get_categories svc ∨
        ∃ sub ∈ svc.subscriptions, sub.status = .active ∧
          effectiveCategory sub = "Uncategorized") ∧
      calculate_cost_per_period svc period = .ok (sumValues m) := by
  have hpl : pyLower period = "monthly" ∨ pyLower period = "annually" := by
    rcases hp with rfl | rfl
    · left; decide
    · right; decide
  have hm1mem : ∀ c ∈ get_categories svc,
      lookupQ ((get_categories svc).foldl fillStep
        (svc.subscriptions.foldl (categoryStep (pyLower period)) [])) c ≠ none :=
    fun c hc => lookupQ_fillFold_mem _ _ c hc
  have hm1nn : AllNonneg ((get_categories svc).foldl fillStep
      (svc.subscriptions.foldl (categoryStep (pyLower period)) [])) :=
    allNonneg_fillFold _ _
      (allNonneg_categoryFold _ _ hcost [] (fun kv hkv => by cases hkv))
  have hm1keys : ∀ k,
      lookupQ ((get_categories svc).foldl fillStep
        (svc.subscriptions.foldl (categoryStep (pyLower period)) [])) k ≠ none →
      k ∈ get_categories svc ∨
        ∃ sub ∈ svc.subscriptions, sub.status = .active ∧ effectiveCategory sub = k := by
    intro k h
    rcases lookupQ_fillFold_ne_none _ _ k h with h' | h'
    · rcases lookupQ_categoryFold_ne_none _ _ k [] h' with h'' | h''
      · exact absurd rfl h''
      · right; exact h''
    · left; exact h'
  have hm1sum : sumValues ((get_categories svc).foldl fillStep
      (svc.subscriptions.foldl (categoryStep (pyLower period)) [])) =
      (svc.subscriptions.map (periodContribution (pyLower period))).sum := by
    rw [sumValues_fillFold, sumValues_categoryFold]
    simp [sumValues]
  have hper : calculate_cost_per_period svc period =
      .ok ((svc.subscriptions.map (periodContribution (pyLower period))).sum) := by
    unfold calculate_cost_per_period
    rw [if_pos hpl]
  unfold calculate_cost_per_category
  rw [if_pos hpl]
  by_cases hcond : lookupQ ((get_categories svc).foldl fillStep
        (svc.subscriptions.foldl (categoryStep (pyLower period)) []))
        "Uncategorized" = none ∧
      svc.subscriptions.any (fun sub =>
        sub.status = .active ∧ (sub.category = "" ∨ pyStrip sub.category = "")) = true
  · rw [if_pos hcond]
    refine ⟨_, rfl, ?_, ?_, ?_⟩
    · intro c hc
      rcases Option.ne_none_iff_exists'.mp (hm1mem c hc) with ⟨v, hm⟩
      refine ⟨v, ?_, lookupQ_nonneg _ c v hm1nn hm⟩
      rw [lookupQ_append, hm]
    · intro _
      obtain ⟨sub, hsub, hprop⟩ := List.any_eq_true.mp hcond.2
      have hprop' := of_decide_eq_true hprop
      right
      exact ⟨sub, hsub, hprop'.1, effectiveCategory_blank sub hprop'.2⟩
    · rw [hper, sumValues_append, hm1sum]
      simp [sumValues]
  · rw [if_neg hcond]
    refine ⟨_, rfl, ?_, ?_, ?_⟩
    · intro c hc
      rcases Option.ne_none_iff_exists'.mp (hm1mem c hc) with ⟨v, hm⟩
      exact ⟨v, hm, lookupQ_nonneg _ c v hm1nn hm⟩
    · intro h
      rcases hm1keys "Uncategorized" h with h' | h'
      · left; exact h'
      · right; exact h'
    · rw [hper, hm1sum]

/-- C6 amended witness: the theorem applied to a concrete service with
one active uncategorized subscription and one known category. -/
theorem calculate_cost_per_category_spec_witness :
    ∃ m, calculate_cost_per_category
      { categories := ["Software"], budget_global := none, budget_categories := [],
        subscriptions :=
          [{ name := "A", cost := 12, billing_cycle := .monthly,
             start_date := ⟨2024, 1, 1⟩, category := "", id := "a1" }] }
      "monthly" = .ok m ∧
      (∀ c ∈ get_categories
        { categories := ["Software"], budget_global := none, budget_categories := [],
          subscriptions :=
            [{ name := "A", cost := 12, billing_cycle := .monthly,
               start_date := ⟨2024, 1, 1⟩, category := "", id := "a1" }] },
        ∃ v, lookupQ m c = some v ∧ 0 ≤ v) ∧
      (lookupQ m "Uncategorized" ≠ none →
        "Uncategorized" ∈ get_categories
          { categories := ["Software"], budget_global := none, budget_categories := [],
            subscriptions :=
              [{ name := "A", cost := 12, billing_cycle := .monthly,
                 start_date := ⟨2024, 1, 1⟩, category := "", id := "a1" }] } ∨
        ∃ sub ∈ ([{ name := "A", cost := 12, billing_cycle := .monthly,
                    start_date := ⟨2024, 1, 1⟩, category := "", id := "a1" }] :
                  List Subscription),
          sub.status = .active ∧ effectiveCategory sub = "Uncategorized") ∧
      calculate_cost_per_period
        { categories := ["Software"], budget_global := none, budget_categories := [],
          subscriptions :=
            [{ name := "A", cost := 12, billing_cycle := .monthly,
               start_date := ⟨2024, 1, 1⟩, category := "", id := "a1" }] }
        "monthly" = .ok (sumValues m) :=
  calculate_cost_per_category_spec
    { categories := ["Software"], budget_global := none, budget_categories := [],
      subscriptions :=
        [{ name := "A", cost := 12, billing_cycle := .monthly,
           start_date := ⟨2024, 1, 1⟩, category := "", id := "a1" }] }
    "monthly" (.inl rfl)
    (fun sub hsub => by
      rcases List.mem_singleton.mp hsub with rfl
      decide)

theorem calculate_cost_per_period_monthly (svc : SubscriptionService) :
    calculate_cost_per_period svc "monthly" =
      .ok ((svc.subscriptions.map (periodContribution "monthly")).sum) := by
  unfold calculate_cost_per_period
  rw [if_pos (by left; decide)]
  rfl

theorem calculate_cost_per_category_monthly_ok (svc : SubscriptionService) :
    ∃ m, calculate_cost_per_category svc "monthly" = .ok m := by
  unfold calculate_cost_per_category
  rw [if_pos (by left; decide)]
  dsimp only
  split
  · exact ⟨_, rfl⟩
  · exact ⟨_, rfl⟩

theorem mem_categoryAlertStep (costs : List (String × ℚ)) (acc : List Alert)
    (cb : String × Option ℚ) (a : Alert) (h : a ∈ categoryAlertStep costs acc cb) :
    a ∈ acc ∨ ∃ c s b o, a = .categoryOver c s b o := by
  unfold categoryAlertStep at h
  rcases cb with ⟨c, _ | b⟩
  · left; exact h
  · dsimp only at h
    split_ifs at h with h1 h2
    · rcases List.mem_append.mp h with h' | h'
      · left; exact h'
      · right
        rcases List.mem_singleton.mp h' with rfl
        exact ⟨c, _, b, _, rfl⟩
    · left; exact h
    · left; exact h

theorem mem_categoryAlertFold (costs : List (String × ℚ))
    (items : List (String × Option ℚ)) (a : Alert) :
    ∀ acc, a ∈ items.foldl (categoryAlertStep costs) acc →
      a ∈ acc ∨ ∃ c s b o, a = .categoryOver c s b o := by
  induction items with
  | nil => intro acc h; left; exact h
  | cons cb rest ih =>
    intro acc h
    rw [List.foldl_cons] at h
    rcases ih _ h with h' | h'
    · exact mem_categoryAlertStep costs acc cb a h'
    · right; exact h'

theorem no_global_in_categoryBudgetAlerts (svc : SubscriptionService)
    (s b o : ℚ) (h : Alert.globalOver s b o ∈ categoryBudgetAlerts svc) : False := by
  unfold categoryBudgetAlerts at h
  split_ifs at h with h1
  · cases h
  · obtain ⟨m, hm⟩ := calculate_cost_per_category_monthly_ok svc
    rw [hm] at h
    rcases mem_categoryAlertFold m svc.budget_categories _ [] h with h' | ⟨c, s', b', o', h'⟩
    · cases h'
    · cases h'

/-- C7: `check_budget_alerts` emits a global alert exactly when a global
monthly budget is configured as a non-negative number and the normalized
monthly spend exceeds it, the alert reports spend, budget and overage
`spend - budget`; with monthly spend 41.96, global budget 30.0 and no
category budgets it returns exactly one alert with overage 11.96, and
with no global budget configured it emits no global alert. -/
theorem check_budget_alerts_spec :
    (∀ svc : SubscriptionService,
      ((∃ s b o, Alert.globalOver s b o ∈ check_budget_alerts svc) ↔
        (∃ g, svc.budget_global = some g ∧ 0 ≤ g ∧
          g < (svc.subscriptions.map (periodContribution "monthly")).sum)) ∧
      (∀ s b o, Alert.globalOver s b o ∈ check_budget_alerts svc →
        svc.budget_global = some b ∧
        s = (svc.subscriptions.map (periodContribution "monthly")).sum ∧
        o = s - b)) ∧
    check_budget_alerts
      { categories := [], budget_global := some 30, budget_categories := [],
        subscriptions :=
          [{ name := "A", cost := 41.96, billing_cycle := .monthly,
             start_date := ⟨2024, 1, 1⟩, id := "a1" }] } =
      [.globalOver 41.96 30 11.96] ∧
    check_budget_alerts
      { categories := [], budget_global := none, budget_categories := [],
        subscriptions :=
          [{ name := "A", cost := 41.96, billing_cycle := .monthly,
             start_date := ⟨2024, 1, 1⟩, id := "a1" }] } = [] := by
  have hmem : ∀ (svc : SubscriptionService) (s b o : ℚ),
      Alert.globalOver s b o ∈ check_budget_alerts svc →
      ∃ g, svc.budget_global = some g ∧ 0 ≤ g ∧
        g < (svc.subscriptions.map (periodContribution "monthly")).sum ∧
        b = g ∧ s = (svc.subscriptions.map (periodContribution "monthly")).sum ∧
        o = s - b := by
    intro svc s b o h
    rcases List.mem_append.mp h with h' | h'
    · unfold globalBudgetAlerts at h'
      rcases hg : svc.budget_global with _ | g
      · rw [hg] at h'; cases h'
      · rw [hg] at h'
        dsimp only at h'
        rw [calculate_cost_per_period_monthly svc] at h'
        dsimp only at h'
        split_ifs at h' with h1 h2
        · rcases List.mem_singleton.mp h' with h''
          injection h'' with hs hb ho
          exact ⟨g, rfl, h1, h2, hb, hs, by rw [hs, hb]; exact ho⟩
        · cases h'
        · cases h'
    · exact absurd h' (fun hh => no_global_in_categoryBudgetAlerts svc s b o hh)
  have hnorm : _normalize_cost_to_period (41.96 : ℚ) .monthly "monthly"
      = .ok 41.96 := by
    unfold _normalize_cost_to_period
    rw [if_pos (by decide)]
    rw [if_pos (by norm_num [_get_annual_factor])]
    norm_num [_get_annual_factor]
  refine ⟨?_, ?_, ?_⟩
  · intro svc
    constructor
    · constructor
      · rintro ⟨s, b, o, h⟩
        obtain ⟨g, hg, h0, hlt, _, _, _⟩ := hmem svc s b o h
        exact ⟨g, hg, h0, hlt⟩
      · rintro ⟨g, hg, h0, hlt⟩
        refine ⟨(svc.subscriptions.map (periodContribution "monthly")).sum, g,
          (svc.subscriptions.map (periodContribution "monthly")).sum - g, ?_⟩
        apply List.mem_append.mpr
        left
        unfold globalBudgetAlerts
        rw [hg]
        dsimp only
        rw [if_pos h0, calculate_cost_per_period_monthly svc]
        dsimp only
        rw [if_pos hlt]
        exact List.mem_singleton.mpr rfl
    · intro s b o h
      obtain ⟨g, hg, _, _, hb, hs, ho⟩ := hmem svc s b o h
      subst hb
      exact ⟨hg, hs, ho⟩
  · unfold check_budget_alerts
    have hcat : categoryBudgetAlerts
        { categories := [], budget_global := some 30, budget_categories := [],
          subscriptions :=
            [{ name := "A", cost := 41.96, billing_cycle := .monthly,
               start_date := ⟨2024, 1, 1⟩, id := "a1" }] } = [] := by
      unfold categoryBudgetAlerts
      rw [if_pos rfl]
    rw [hcat, List.append_nil]
    unfold globalBudgetAlerts
    dsimp only
    rw [if_pos (by norm_num : (0 : ℚ) ≤ 30), calculate_cost_per_period_monthly]
    dsimp only
    have hsum : (List.map (periodContribution "monthly")
        [{ name := "A", cost := 41.96, billing_cycle := .monthly,
           start_date := ⟨2024, 1, 1⟩, id := "a1" }]).sum = (41.96 : ℚ) := by
      simp [periodContribution, hnorm]
    rw [hsum, if_pos (by norm_num : (30 : ℚ) < 41.96)]
    norm_num
  · unfold check_budget_alerts globalBudgetAlerts categoryBudgetAlerts
    rfl

/-- C7 witness: the alert present in the concrete scenario satisfies the
general characterization of the global alert. -/
theorem check_budget_alerts_spec_witness :
    ({ categories := [], budget_global := some 30, budget_categories := [],
       subscriptions :=
         [{ name := "A", cost := 41.96, billing_cycle := .monthly,
            start_date := ⟨2024, 1, 1⟩, id := "a1" }] } :
      SubscriptionService).budget_global = some 30 ∧
    (41.96 : ℚ) =
      (([{ name := "A", cost := 41.96, billing_cycle := .monthly,
           start_date := ⟨2024, 1, 1⟩, id := "a1" }] :
        List Subscription).map (periodContribution "monthly")).sum ∧
    (11.96 : ℚ) = 41.96 - 30 :=
  (check_budget_alerts_spec.1
    { categories := [], budget_global := some 30, budget_categories := [],
      subscriptions :=
        [{ name := "A", cost := 41.96, billing_cycle := .monthly,
           start_date := ⟨2024, 1, 1⟩, id := "a1" }] }).2 41.96 30 11.96
    (by rw [check_budget_alerts_spec.2.1]; exact List.mem_singleton.mpr rfl)

theorem advanceWhileLt_key_ge (c : BillingCycle) (hc : c ≠ .other)
    (today : Date) (fuel : Nat) :
    ∀ d : Date, d.Valid → d.key ≤ (advanceWhileLt c today fuel d).key := by
  induction fuel with
  | zero => intro d _; exact le_refl _
  | succ n ih =>
    intro d hd
    unfold advanceWhileLt
    by_cases h : Date.Lt d today
    · rw [if_pos h]
      have h1 := key_lt_stepCycle c hc d hd
      have h2 := ih (stepCycle c d) (valid_stepCycle c d hd)
      omega
    · rw [if_neg h]

theorem Date.le_iff_key (a b : Date) (ha : a.Valid) (hb : b.Valid) :
    Date.Le a b ↔ a.key ≤ b.key := by
  obtain ⟨ha1, ha2, ha3, ha4⟩ := ha
  obtain ⟨hb1, hb2, hb3, hb4⟩ := hb
  have hma := daysInMonth_bounds a.year a.month
  have hmb := daysInMonth_bounds b.year b.month
  unfold Date.Le Date.key
  omega

theorem valid_key_pos (d : Date) (hd : d.Valid) : 1 ≤ d.key := by
  obtain ⟨h1, h2, h3, h4⟩ := hd
  unfold Date.key
  omega

theorem forecastNext_some (today : Date) (sub : Subscription)
    (hc : sub.billing_cycle ≠ .other) (d : Date) :
    ∃ d', forecastNext today sub d = some d' := by
  unfold forecastNext
  obtain ⟨d', hd⟩ :=
    calculate_next_renewal_date_ok today sub.start_date sub.billing_cycle (some d) hc
  rw [hd]
  exact ⟨d', rfl⟩

theorem forecastNext_gt (today : Date) (sub : Subscription)
    (hc : sub.billing_cycle ≠ .other) (ht : today.Valid) (hs : sub.start_date.Valid)
    (d d' : Date) (hd : d.Valid) (h : forecastNext today sub d = some d') :
    d.key < d'.key ∧ d'.Valid := by
  have hbase : (renewalBase sub.start_date (some d)).Valid ∧
      d.key ≤ (renewalBase sub.start_date (some d)).key := by
    unfold renewalBase
    dsimp only
    by_cases hlt : Date.Lt sub.start_date d
    · rw [if_pos hlt]
      exact ⟨hd, le_refl _⟩
    · rw [if_neg hlt]
      refine ⟨hs, ?_⟩
      have : Date.Le d sub.start_date := (Date.le_iff_not_lt d sub.start_date).mpr hlt
      exact (Date.le_iff_key d sub.start_date hd hs).mp this
  unfold forecastNext calculate_next_renewal_date at h
  rw [if_neg hc] at h
  dsimp only at h
  injection h with h
  have hstepv := valid_stepCycle sub.billing_cycle _ hbase.1
  have hstep := key_lt_stepCycle sub.billing_cycle hc _ hbase.1
  have hadv := advanceWhileLt_key_ge sub.billing_cycle hc today (today.key + 1) _ hstepv
  have hval := advanceWhileLt_valid sub.billing_cycle today (today.key + 1) _ hstepv
  constructor
  · rw [← h]
    have := hbase.2
    omega
  · rw [← h]
    exact hval

theorem forecastOccurrences_valid_ge (today : Date) (sub : Subscription)
    (hc : sub.billing_cycle ≠ .other) (ht : today.Valid) (hs : sub.start_date.Valid)
    (ed : Date) :
    ∀ fuel d, d.Valid →
      ∀ x ∈ forecastOccurrences today sub ed fuel d, x.Valid ∧ d.key ≤ x.key := by
  intro fuel
  induction fuel with
  | zero => intro d _ x hx; cases hx
  | succ n ih =>
    intro d hd x hx
    unfold forecastOccurrences at hx
    by_cases hle : Date.Le d ed
    · rw [if_pos hle] at hx
      rcases List.mem_cons.mp hx with rfl | hx'
      · exact ⟨hd, le_refl _⟩
      · rcases hn : forecastNext today sub d with _ | d'
        · rw [hn] at hx'; cases hx'
        · rw [hn] at hx'
          obtain ⟨hkey, hval⟩ := forecastNext_gt today sub hc ht hs d d' hd hn
          obtain ⟨hxv, hxk⟩ := ih d' hval x hx'
          exact ⟨hxv, by omega⟩
    · rw [if_neg hle] at hx; cases hx

theorem forecastOccurrences_fuel_mono (today : Date) (sub : Subscription)
    (hc : sub.billing_cycle ≠ .other) (ht : today.Valid) (hs : sub.start_date.Valid)
    (ed : Date) (hed : ed.Valid) :
    ∀ fuel fuel' d, d.Valid → ed.key + 1 ≤ d.key + fuel → ed.key + 1 ≤ d.key + fuel' →
      forecastOccurrences today sub ed fuel d = forecastOccurrences today sub ed fuel' d := by
  intro fuel
  induction fuel with
  | zero =>
    intro fuel' d hd hf hf'
    have hnle : ¬ Date.Le d ed := by
      rw [Date.le_iff_key d ed hd hed]
      omega
    cases fuel' with
    | zero => rfl
    | succ k =>
      conv_rhs => rw [forecastOccurrences]
      rw [if_neg hnle]
      rfl
  | succ n ih =>
    intro fuel' d hd hf hf'
    by_cases hle : Date.Le d ed
    · have hdk : d.key ≤ ed.key := (Date.le_iff_key d ed hd hed).mp hle
      cases fuel' with
      | zero => omega
      | succ k =>
        rw [forecastOccurrences]
        rw [forecastOccurrences]
        rw [if_pos hle, if_pos hle]
        rcases hn : forecastNext today sub d with _ | d'
        · rfl
        · obtain ⟨hkey, hval⟩ := forecastNext_gt today sub hc ht hs d d' hd hn
          dsimp only
          rw [ih k d' hval (by omega) (by omega)]
    · cases fuel' with
      | zero =>
        conv_lhs => rw [forecastOccurrences]
        rw [if_neg hle]
        rfl
      | succ k =>
        rw [forecastOccurrences]
        rw [forecastOccurrences]
        rw [if_neg hle, if_neg hle]

theorem accumLoop_eq (today ed : Date) (sub : Subscription) :
    ∀ fuel d, accumLoop today ed sub fuel (some d) =
      sub.cost * ((forecastOccurrences today sub ed fuel d).length : ℚ) := by
  intro fuel
  induction fuel with
  | zero =>
    intro d
    unfold accumLoop forecastOccurrences
    simp
  | succ n ih =>
    intro d
    unfold accumLoop forecastOccurrences
    by_cases hle : Date.Le d ed
    · rw [if_pos hle, if_pos hle]
      rcases hn : forecastNext today sub d with _ | d'
      · unfold accumLoop
        simp
      · rw [ih d']
        simp only [List.length_cons]
        push_cast
        ring
    · rw [if_neg hle, if_neg hle]
      simp

theorem seekLoop_of_not_lt (today sd : Date) (sub : Subscription) (fuel : Nat)
    (d : Date) (h : ¬ Date.Lt d sd) : seekLoop today sd sub fuel d = some d := by
  cases fuel with
  | zero => rfl
  | succ n =>
    unfold seekLoop
    rw [if_neg h]

theorem accum_filter_of_ge (today sd ed : Date) (sub : Subscription)
    (hc : sub.billing_cycle ≠ .other) (ht : today.Valid) (hs : sub.start_date.Valid)
    (hsd : sd.Valid) (d : Date) (hd : d.Valid) (hge : ¬ Date.Lt d sd) :
    accumLoop today ed sub (ed.key + 1) (some d) =
      sub.cost * (((forecastOccurrences today sub ed (ed.key + 1) d).filter
        (fun x => decide (Date.Le sd x))).length : ℚ) := by
  rw [accumLoop_eq]
  have hfilter : (forecastOccurrences today sub ed (ed.key + 1) d).filter
      (fun x => decide (Date.Le sd x)) =
      forecastOccurrences today sub ed (ed.key + 1) d := by
    apply List.filter_eq_self.mpr
    intro x hx
    obtain ⟨hxv, hxk⟩ :=
      forecastOccurrences_valid_ge today sub hc ht hs ed (ed.key + 1) d hd x hx
    apply decide_eq_true
    rw [Date.le_iff_key sd x hsd hxv]
    have hsdk : sd.key ≤ d.key := by
      have : Date.Le sd d := (Date.le_iff_not_lt sd d).mpr hge
      exact (Date.le_iff_key sd d hsd hd).mp this
    omega
  rw [hfilter]

theorem seek_accum_eq (today sd ed : Date) (sub : Subscription)
    (hc : sub.billing_cycle ≠ .other) (ht : today.Valid) (hs : sub.start_date.Valid)
    (hsd : sd.Valid) (hed : ed.Valid) :
    ∀ f1 d, d.Valid → sd.key + 1 ≤ d.key + f1 →
      accumLoop today ed sub (ed.key + 1) (seekLoop today sd sub f1 d) =
        sub.cost * (((forecastOccurrences today sub ed (ed.key + 1) d).filter
          (fun x => decide (Date.Le sd x))).length : ℚ) := by
  intro f1
  induction f1 with
  | zero =>
    intro d hd hf
    have hge : ¬ Date.Lt d sd := by
      rw [Date.lt_iff_key d sd hd hsd]
      omega
    rw [seekLoop_of_not_lt today sd sub 0 d hge]
    exact accum_filter_of_ge today sd ed sub hc ht hs hsd d hd hge
  | succ k ih =>
    intro d hd hf
    by_cases hlt : Date.Lt d sd
    · unfold seekLoop
      rw [if_pos hlt]
      obtain ⟨d', hd'⟩ := forecastNext_some today sub hc d
      rw [hd']
      dsimp only
      obtain ⟨hkey, hval⟩ := forecastNext_gt today sub hc ht hs d d' hd hd'
      rw [ih d' hval (by omega)]
      congr 2
      by_cases hle : Date.Le d ed
      · have hoccd : forecastOccurrences today sub ed (ed.key + 1) d =
            d :: forecastOccurrences today sub ed ed.key d' := by
          conv_lhs => rw [forecastOccurrences]
          rw [if_pos hle, hd']
        rw [hoccd, List.filter_cons]
        have hnotle : decide (Date.Le sd d) = false := by
          apply decide_eq_false
          intro hcon
          exact ((Date.le_iff_not_lt sd d).mp hcon) hlt
        rw [hnotle]
        simp only [Bool.false_eq_true, if_false]
        rw [forecastOccurrences_fuel_mono today sub hc ht hs ed hed
          ed.key (ed.key + 1) d' hval (by
            have := valid_key_pos d' hval
            omega) (by omega)]
      · have h1 : forecastOccurrences today sub ed (ed.key + 1) d = [] := by
          rw [forecastOccurrences]
          rw [if_neg hle]
        have h2 : forecastOccurrences today sub ed (ed.key + 1) d' = [] := by
          rw [forecastOccurrences]
          rw [if_neg (by
            rw [Date.le_iff_key d' ed hval hed]
            have hnk : ¬ d.key ≤ ed.key := by
              rw [← Date.le_iff_key d ed hd hed]
              exact hle
            omega)]
        rw [h1, h2]
    · rw [seekLoop_of_not_lt today sd sub (k + 1) d hlt]
      exact accum_filter_of_ge today sd ed sub hc ht hs hsd d hd hlt

theorem forecastSub_eq (today sd ed : Date) (sub : Subscription)
    (hc : sub.billing_cycle ≠ .other) (ht : today.Valid) (hs : sub.start_date.Valid)
    (hsd : sd.Valid) (hed : ed.Valid)
    (hr : ∀ r, sub.next_renewal_date = some r → r.Valid) :
    forecastSub today sd ed sub =
      sub.cost * ((specOccurrencesInRange today sub sd ed).length : ℚ) := by
  unfold forecastSub specOccurrencesInRange forecastSeed
  rcases hn : sub.next_renewal_date with _ | r
  · dsimp only
    exact seek_accum_eq today sd ed sub hc ht hs hsd hed (sd.key + 1)
      sub.start_date hs (by omega)
  · dsimp only
    have hrv := hr r hn
    by_cases hlt : Date.Lt r sd
    · rw [if_pos hlt]
      exact seek_accum_eq today sd ed sub hc ht hs hsd hed (sd.key + 1) r hrv (by omega)
    · rw [if_neg hlt, ← seekLoop_of_not_lt today sd sub (sd.key + 1) r hlt]
      exact seek_accum_eq today sd ed sub hc ht hs hsd hed (sd.key + 1) r hrv (by omega)

theorem foldl_forecast_sum (today sd ed : Date) (subs : List Subscription) :
    ∀ acc : ℚ, subs.foldl (fun total sub =>
        if sub.status ≠ .active ∨ sub.billing_cycle = .other then total
        else total + forecastSub today sd ed sub) acc =
      acc + (subs.map (fun sub =>
        if sub.status = .active ∧ sub.billing_cycle ≠ .other then
          forecastSub today sd ed sub
        else 0)).sum := by
  induction subs with
  | nil => intro acc; simp
  | cons sub rest ih =>
    intro acc
    rw [List.foldl_cons, ih]
    by_cases hskip : sub.status ≠ .active ∨ sub.billing_cycle = .other
    · rw [if_pos hskip]
      have : ¬ (sub.status = .active ∧ sub.billing_cycle ≠ .other) := by tauto
      rw [List.map_cons, List.sum_cons, if_neg this]
      ring
    · rw [if_neg hskip]
      have : sub.status = .active ∧ sub.billing_cycle ≠ .other := by tauto
      rw [List.map_cons, List.sum_cons, if_pos this]
      ring

/-- C5: for valid dates with `sd ≤ ed`, the spending forecast returns
the sum, over exactly the `active`, non-`other`-cycle subscriptions, of
the raw per-renewal cost times the number of walked occurrences falling
within `[sd, ed]` inclusive (cancelled, inactive, trial and
`other`-cycle subscriptions contribute nothing); `start > end` is a
reported error, and a non-date argument (modelled `none`) is a reported
error. -/
theorem calculate_spending_forecast_spec (today : Date)
    (svc : SubscriptionService) (sd ed : Date)
    (ht : today.Valid) (hsd : sd.Valid) (hed : ed.Valid)
    (hsubs : ∀ sub ∈ svc.subscriptions, sub.start_date.Valid ∧
      ∀ r, sub.next_renewal_date = some r → r.Valid) :
    (Date.Le sd ed →
      calculate_spending_forecast today svc (some sd) (some ed) =
        .ok ((svc.subscriptions.map (fun sub =>
          if sub.status = .active ∧ sub.billing_cycle ≠ .other then
            sub.cost * ((specOccurrencesInRange today sub sd ed).length : ℚ)
          else 0)).sum)) ∧
    (Date.Lt ed sd →
      ∃ msg, calculate_spending_forecast today svc (some sd) (some ed) = .error msg) ∧
    (∀ e, ∃ msg, calculate_spending_forecast today svc none e = .error msg) ∧
    (∀ s, ∃ msg, calculate_spending_forecast today svc s none = .error msg) := by
  refine ⟨?_, ?_, ?_, ?_⟩
  · intro hle
    unfold calculate_spending_forecast
    dsimp only
    rw [if_neg ((Date.le_iff_not_lt sd ed).mp hle)]
    rw [foldl_forecast_sum, zero_add]
    refine congrArg Except.ok (congrArg List.sum (List.map_congr_left ?_))
    intro sub hsub
    by_cases hcond : sub.status = .active ∧ sub.billing_cycle ≠ .other
    · rw [if_pos hcond, if_pos hcond]
      exact forecastSub_eq today sd ed sub hcond.2 ht (hsubs sub hsub).1 hsd hed
        (hsubs sub hsub).2
    · rw [if_neg hcond, if_neg hcond]
  · intro hlt
    unfold calculate_spending_forecast
    dsimp only
    rw [if_pos hlt]
    exact ⟨_, rfl⟩
  · intro e
    rcases e with _ | e' <;> exact ⟨_, rfl⟩
  · intro s
    rcases s with _ | s' <;> exact ⟨_, rfl⟩

/-- C5 witness: the theorem applied to a concrete one-subscription
service and the window 2024-07-01 … 2024-12-31. -/
theorem calculate_spending_forecast_spec_witness :
    calculate_spending_forecast ⟨2024, 7, 10⟩
      { categories := [], budget_global := none, budget_categories := [],
        subscriptions :=
          [{ name := "A", cost := 10, billing_cycle := .monthly,
             start_date := ⟨2024, 1, 5⟩, id := "a1",
             next_renewal_date := some ⟨2024, 7, 5⟩ }] }
      (some ⟨2024, 7, 1⟩) (some ⟨2024, 12, 31⟩) =
      .ok (([{ name := "A", cost := 10, billing_cycle := .monthly,
               start_date := ⟨2024, 1, 5⟩, id := "a1",
               next_renewal_date := some ⟨2024, 7, 5⟩ }] :
          List Subscription).map (fun sub =>
            if sub.status = .active ∧ sub.billing_cycle ≠ .other then
              sub.cost * ((specOccurrencesInRange ⟨2024, 7, 10⟩ sub
                ⟨2024, 7, 1⟩ ⟨2024, 12, 31⟩).length : ℚ)
            else 0)).sum :=
  (calculate_spending_forecast_spec ⟨2024, 7, 10⟩
    { categories := [], budget_global := none, budget_categories := [],
      subscriptions :=
        [{ name := "A", cost := 10, billing_cycle := .monthly,
           start_date := ⟨2024, 1, 5⟩, id := "a1",
           next_renewal_date := some ⟨2024, 7, 5⟩ }] }
    ⟨2024, 7, 1⟩ ⟨2024, 12, 31⟩ (by decide) (by decide) (by decide)
    (fun sub hsub => by
      rcases List.mem_singleton.mp hsub with rfl
      exact ⟨by decide, fun r hr => by cases hr; decide⟩)).1 (by decide)

theorem stepInert_unknown (sub : Subscription) (k : String) (v : PyValue)
    (h : getField sub k = none) : stepInert sub k v := by
  intro acc
  unfold validateStep
  by_cases hid : k = "id"
  · rw [if_pos hid]
  · rw [if_neg hid]
    dsimp only
    rw [h]

theorem stepInert_id (sub : Subscription) (v : PyValue) :
    stepInert sub "id" v := by
  intro acc
  unfold validateStep
  rw [if_pos rfl]

theorem stepInert_invalid (sub : Subscription) (k : String) (v : PyValue)
    (orig : PyValue) (ty : FieldTy) (horig : getField sub k = some orig)
    (hty : fieldTy k = some ty) (hid : k ≠ "id") (hv : v ≠ .pNone)
    (hco : coerceValue ty v = none) : stepInert sub k v := by
  intro acc
  unfold validateStep
  rw [if_neg hid]
  dsimp only
  rw [horig, hty]
  dsimp only
  rw [if_neg hv, hco]

theorem stepInert_none_nonopt (sub : Subscription) (k : String)
    (orig : PyValue) (ty : FieldTy) (horig : getField sub k = some orig)
    (hty : fieldTy k = some ty) (hid : k ≠ "id")
    (hopt : isOptionalTy ty = false) : stepInert sub k .pNone := by
  intro acc
  unfold validateStep
  rw [if_neg hid]
  dsimp only
  rw [horig, hty]
  dsimp only
  rw [if_pos rfl, hopt]
  rfl

theorem stepInert_none_unchanged (sub : Subscription) (k : String)
    (ty : FieldTy) (horig : getField sub k = some .pNone)
    (hty : fieldTy k = some ty) (hid : k ≠ "id") : stepInert sub k .pNone := by
  intro acc
  unfold validateStep
  rw [if_neg hid]
  dsimp only
  rw [horig, hty]
  dsimp only
  rw [if_pos rfl]
  by_cases hopt : isOptionalTy ty
  · rw [if_pos hopt, if_neg (by simp)]
  · rw [if_neg hopt]

theorem stepInert_negcost (sub : Subscription) (v : PyValue) (orig : PyValue)
    (ty : FieldTy) (cv : PyValue) (horig : getField sub "cost" = some orig)
    (hty : fieldTy "cost" = some ty) (hv : v ≠ .pNone)
    (hco : coerceValue ty v = some cv) (hneg : costNegative cv = true) :
    stepInert sub "cost" v := by
  intro acc
  unfold validateStep
  dsimp only
  rw [if_neg (by decide), horig, hty]
  dsimp only
  rw [if_neg hv, hco]
  dsimp only
  rw [if_pos ⟨rfl, hneg⟩]

theorem stepInert_unchanged (sub : Subscription) (k : String) (v : PyValue)
    (orig : PyValue) (ty : FieldTy) (horig : getField sub k = some orig)
    (hty : fieldTy k = some ty) (hid : k ≠ "id") (hv : v ≠ .pNone)
    (hco : coerceValue ty v = some orig)
    (hnc : ¬ (k = "cost" ∧ costNegative orig = true)) : stepInert sub k v := by
  intro acc
  unfold validateStep
  rw [if_neg hid]
  dsimp only
  rw [horig, hty]
  dsimp only
  rw [if_neg hv, hco]
  dsimp only
  rw [if_neg hnc, if_neg (by simp)]

theorem validate_inert_fold (sub : Subscription) (data : List (String × PyValue))
    (h : ∀ kv ∈ data, stepInert sub kv.1 kv.2) :
    ∀ acc, data.foldl (validateStep sub) acc = acc := by
  induction data with
  | nil => intro acc; rfl
  | cons kv rest ih =>
    intro acc
    rw [List.foldl_cons, h kv (List.mem_cons_self _ _) acc]
    exact ih (fun x hx => h x (List.mem_cons_of_mem _ hx)) acc

theorem upsert_ne_nil (m : List (String × PyValue)) (k : String) (v : PyValue) :
    upsert m k v ≠ [] := by
  cases m with
  | nil => simp [upsert]
  | cons kv rest =>
    obtain ⟨k', v'⟩ := kv
    unfold upsert
    split <;> simp

theorem addField_ne_nil (l : List String) (k : String) : addField l k ≠ [] := by
  unfold addField
  split
  · next h =>
    intro hl
    rw [hl] at h
    cases h
  · simp

theorem validateStep_cases (sub : Subscription)
    (acc : List (String × PyValue) × List String) (kv : String × PyValue) :
    validateStep sub acc kv = acc ∨
      ∃ cv, validateStep sub acc kv = (upsert acc.1 kv.1 cv, addField acc.2 kv.1) := by
  unfold validateStep
  by_cases hid : kv.1 = "id"
  · rw [if_pos hid]; left; rfl
  · rw [if_neg hid]
    rcases hg : getField sub kv.1 with _ | orig
    · rcases hft : fieldTy kv.1 with _ | ty <;> (left; rfl)
    · rcases hft : fieldTy kv.1 with _ | ty
      · left; rfl
      · dsimp only
        by_cases hv : kv.2 = .pNone
        · rw [if_pos hv]
          by_cases hopt : isOptionalTy ty
          · rw [if_pos hopt]
            by_cases hno : orig ≠ .pNone
            · rw [if_pos hno]; right; exact ⟨.pNone, rfl⟩
            · rw [if_neg hno]; left; rfl
          · rw [if_neg hopt]; left; rfl
        · rw [if_neg hv]
          rcases hco : coerceValue ty kv.2 with _ | cv
          · left; rfl
          · dsimp only
            by_cases hneg : kv.1 = "cost" ∧ costNegative cv = true
            · rw [if_pos hneg]; left; rfl
            · rw [if_neg hneg]
              by_cases hch : orig ≠ cv
              · rw [if_pos hch]; right; exact ⟨cv, rfl⟩
              · rw [if_neg hch]; left; rfl

theorem validate_parts_lockstep (sub : Subscription)
    (data : List (String × PyValue)) :
    ∀ acc : List (String × PyValue) × List String, (acc.1 = [] ↔ acc.2 = []) →
      ((data.foldl (validateStep sub) acc).1 = [] ↔
        (data.foldl (validateStep sub) acc).2 = []) := by
  induction data with
  | nil => intro acc h; exact h
  | cons kv rest ih =>
    intro acc h
    rw [List.foldl_cons]
    rcases validateStep_cases sub acc kv with hc | ⟨cv, hc⟩
    · rw [hc]; exact ih acc h
    · rw [hc]
      refine ih _ ?_
      constructor
      · intro hu; exact absurd hu (upsert_ne_nil _ _ _)
      · intro ha; exact absurd ha (addField_ne_nil _ _)

theorem validate_snd_ne_nil (sub : Subscription) (data : List (String × PyValue))
    (h : (_validate_and_prepare_updates sub data).1 ≠ []) :
    (_validate_and_prepare_updates sub data).2 ≠ [] := by
  intro h2
  exact h ((validate_parts_lockstep sub data ([], []) (by simp)).mpr h2)

/-- C8 counterexample: on a subscription whose status is `active`, no
trial end date, and an up-to-date renewal date, the update
`{"status": "trial"}` is applied, immediately reverted to `active` by
the consistency rule, and the renewal recomputation reproduces the same
date — the final state equals the initial state — yet
`update_subscription` returns `true`, where the claim's "returns true
exactly when some effective change occurred" demands `false`. -/
theorem update_subscription_no_effect_counterexample :
    update_subscription ⟨2024, 7, 10⟩
      { categories := [], budget_global := none, budget_categories := [],
        subscriptions :=
          [{ name := "X", cost := 5, billing_cycle := .monthly,
             start_date := ⟨2024, 1, 15⟩, status := .active, id := "s1",
             next_renewal_date := some ⟨2024, 7, 15⟩ }] }
      "s1" [("status", .pStatus .trial)] =
      ({ categories := [], budget_global := none, budget_categories := [],
         subscriptions :=
           [{ name := "X", cost := 5, billing_cycle := .monthly,
              start_date := ⟨2024, 1, 15⟩, status := .active, id := "s1",
              next_renewal_date := some ⟨2024, 7, 15⟩ }] }, true) := by
  decide

theorem coerce_fits (ty : FieldTy) (v cv : PyValue)
    (h : coerceValue ty v = some cv) : valueFits ty cv = true := by
  cases ty <;> cases v <;>
    simp only [coerceValue, Option.map_eq_some'] at h <;>
    first
      | (obtain ⟨a, _, rfl⟩ := h; rfl)
      | (rw [← h]; rfl)
      | cases h

theorem optional_fits_none (ty : FieldTy) (h : isOptionalTy ty = true) :
    valueFits ty .pNone = true := by
  cases ty <;> first | rfl | cases h

set_option maxHeartbeats 2000000 in
theorem getField_setField_same (k : String) (ty : FieldTy) (v : PyValue)
    (hty : fieldTy k = some ty) (hfits : valueFits ty v = true)
    (s : Subscription) : getField (setField s k v) k = some v := by
  unfold fieldTy at hty
  split at hty <;>
    first
      | exact Option.noConfusion hty
      | (injection hty with hh; subst hh;
         cases v <;> first | exact Bool.noConfusion hfits | rfl)

set_option maxHeartbeats 4000000 in
theorem getField_setField_ne (k k' : String) (ty ty' : FieldTy)
    (hty : fieldTy k = some ty) (hty' : fieldTy k' = some ty')
    (hne : k' ≠ k) (v : PyValue) (s : Subscription) :
    getField (setField s k' v) k = getField s k := by
  unfold fieldTy at hty hty'
  split at hty <;>
    first
      | exact Option.noConfusion hty
      | (split at hty' <;>
          first
            | exact Option.noConfusion hty'
            | (exact absurd rfl hne)
            | (cases v <;> rfl))

theorem mem_upsert (m : List (String × PyValue)) (k : String) (v : PyValue)
    (kv : String × PyValue) (h : kv ∈ upsert m k v) : kv ∈ m ∨ kv = (k, v) := by
  induction m with
  | nil => right; exact List.mem_singleton.mp h
  | cons kv' rest ih =>
    obtain ⟨k', v'⟩ := kv'
    unfold upsert at h
    by_cases hk : k' = k
    · rw [if_pos hk] at h
      rcases List.mem_cons.mp h with rfl | h'
      · right; rfl
      · left; exact List.mem_cons_of_mem _ h'
    · rw [if_neg hk] at h
      rcases List.mem_cons.mp h with rfl | h'
      · left; exact List.mem_cons_self _ _
      · rcases ih h' with h'' | h''
        · left; exact List.mem_cons_of_mem _ h''
        · right; exact h''

theorem mem_upsert_self (m : List (String × PyValue)) (k : String) (v : PyValue) :
    (k, v) ∈ upsert m k v := by
  induction m with
  | nil => exact List.mem_singleton.mpr rfl
  | cons kv' rest ih =>
    obtain ⟨k', v'⟩ := kv'
    unfold upsert
    by_cases hk : k' = k
    · rw [if_pos hk]; exact List.mem_cons_self _ _
    · rw [if_neg hk]; exact List.mem_cons_of_mem _ ih

theorem mem_upsert_of_mem_ne (m : List (String × PyValue)) (k : String)
    (v : PyValue) (kv : String × PyValue) (h : kv ∈ m) (hne : kv.1 ≠ k) :
    kv ∈ upsert m k v := by
  induction m with
  | nil => cases h
  | cons kv' rest ih =>
    obtain ⟨k', v'⟩ := kv'
    unfold upsert
    by_cases hk : k' = k
    · rw [if_pos hk]
      rcases List.mem_cons.mp h with rfl | h'
      · exact absurd hk hne
      · exact List.mem_cons_of_mem _ h'
    · rw [if_neg hk]
      rcases List.mem_cons.mp h with rfl | h'
      · exact List.mem_cons_self _ _
      · exact List.mem_cons_of_mem _ (ih h')

theorem keys_upsert (m : List (String × PyValue)) (k : String) (v : PyValue)
    (x : String) (h : x ∈ (upsert m k v).map Prod.fst) :
    x ∈ m.map Prod.fst ∨ x = k := by
  rcases List.mem_map.mp h with ⟨kv, hkv, rfl⟩
  rcases mem_upsert m k v kv hkv with h' | h'
  · left; exact List.mem_map_of_mem _ h'
  · right; rw [h']

theorem nodup_keys_upsert (m : List (String × PyValue)) (k : String)
    (v : PyValue) (h : (m.map Prod.fst).Nodup) :
    ((upsert m k v).map Prod.fst).Nodup := by
  induction m with
  | nil => simp [upsert]
  | cons kv' rest ih =>
    obtain ⟨k', v'⟩ := kv'
    rw [List.map_cons, List.nodup_cons] at h
    unfold upsert
    by_cases hk : k' = k
    · rw [if_pos hk]
      rw [List.map_cons, List.nodup_cons]
      exact ⟨hk ▸ h.1, h.2⟩
    · rw [if_neg hk]
      rw [List.map_cons, List.nodup_cons]
      constructor
      · intro hmem
        rcases keys_upsert rest k v k' hmem with h' | h'
        · exact h.1 h'
        · exact hk h'
      · exact ih h.2

theorem validate_entries_fit (sub : Subscription)
    (data : List (String × PyValue)) :
    ∀ acc, (∀ kv ∈ acc.1, ∃ t, fieldTy kv.1 = some t ∧ valueFits t kv.2 = true) →
      ∀ kv ∈ (data.foldl (validateStep sub) acc).1,
        ∃ t, fieldTy kv.1 = some t ∧ valueFits t kv.2 = true := by
  induction data with
  | nil => intro acc hacc; exact hacc
  | cons item rest ih =>
    intro acc hacc
    rw [List.foldl_cons]
    refine ih _ ?_
    intro kv hkv
    unfold validateStep at hkv
    by_cases hid : item.1 = "id"
    · rw [if_pos hid] at hkv; exact hacc kv hkv
    · rw [if_neg hid] at hkv
      rcases hg : getField sub item.1 with _ | orig
      · rw [hg] at hkv
        rcases hft : fieldTy item.1 with _ | ty <;> rw [hft] at hkv <;>
          exact hacc kv hkv
      · rw [hg] at hkv
        rcases hft : fieldTy item.1 with _ | ty
        · rw [hft] at hkv; exact hacc kv hkv
        · rw [hft] at hkv
          dsimp only at hkv
          by_cases hv : item.2 = .pNone
          · rw [if_pos hv] at hkv
            by_cases hopt : isOptionalTy ty
            · rw [if_pos hopt] at hkv
              by_cases hno : orig ≠ .pNone
              · rw [if_pos hno] at hkv
                dsimp only at hkv
                rcases mem_upsert _ _ _ kv hkv with h' | h'
                · exact hacc kv h'
                · subst h'
                  exact ⟨ty, hft, optional_fits_none ty hopt⟩
              · rw [if_neg hno] at hkv; exact hacc kv hkv
            · rw [if_neg hopt] at hkv; exact hacc kv hkv
          · rw [if_neg hv] at hkv
            rcases hco : coerceValue ty item.2 with _ | cv
            · rw [hco] at hkv; exact hacc kv hkv
            · rw [hco] at hkv
              dsimp only at hkv
              by_cases hneg : item.1 = "cost" ∧ costNegative cv = true
              · rw [if_pos hneg] at hkv; exact hacc kv hkv
              · rw [if_neg hneg] at hkv
                by_cases hch : orig ≠ cv
                · rw [if_pos hch] at hkv
                  dsimp only at hkv
                  rcases mem_upsert _ _ _ kv hkv with h' | h'
                  · exact hacc kv h'
                  · subst h'
                    exact ⟨ty, hft, coerce_fits ty item.2 cv hco⟩
                · rw [if_neg hch] at hkv; exact hacc kv hkv

theorem validate_keys_nodup (sub : Subscription)
    (data : List (String × PyValue)) :
    ∀ acc, (acc.1.map Prod.fst).Nodup →
      (((data.foldl (validateStep sub) acc).1).map Prod.fst).Nodup := by
  induction data with
  | nil => intro acc hacc; exact hacc
  | cons item rest ih =>
    intro acc hacc
    rw [List.foldl_cons]
    refine ih _ ?_
    rcases validateStep_cases sub acc item with hc | ⟨cv, hc⟩
    · rw [hc]; exact hacc
    · rw [hc]; exact nodup_keys_upsert acc.1 item.1 cv hacc

theorem getField_applyUpdates_notmem (k : String) (ty : FieldTy)
    (hty : fieldTy k = some ty) (valid : List (String × PyValue)) :
    ∀ s, (∀ kv ∈ valid, ∃ t, fieldTy kv.1 = some t ∧ valueFits t kv.2 = true) →
      k ∉ valid.map Prod.fst → getField (applyUpdates s valid) k = getField s k := by
  induction valid with
  | nil => intro s _ _; rfl
  | cons kv rest ih =>
    intro s hfit hnot
    rw [List.map_cons, List.mem_cons] at hnot
    push_neg at hnot
    obtain ⟨t, hkt, _⟩ := hfit kv (List.mem_cons_self _ _)
    unfold applyUpdates
    rw [List.foldl_cons]
    have := ih (setField s kv.1 kv.2)
      (fun x hx => hfit x (List.mem_cons_of_mem _ hx)) hnot.2
    unfold applyUpdates at this
    rw [this]
    exact getField_setField_ne k kv.1 ty t hty hkt (fun hh => hnot.1 hh.symm) kv.2 s

theorem getField_applyUpdates_mem (k : String) (ty : FieldTy) (cv : PyValue)
    (hty : fieldTy k = some ty) (valid : List (String × PyValue)) :
    ∀ s, (∀ kv ∈ valid, ∃ t, fieldTy kv.1 = some t ∧ valueFits t kv.2 = true) →
      (valid.map Prod.fst).Nodup → (k, cv) ∈ valid →
      getField (applyUpdates s valid) k = some cv := by
  induction valid with
  | nil => intro s _ _ hmem; cases hmem
  | cons kv rest ih =>
    intro s hfit hnd hmem
    rw [List.map_cons, List.nodup_cons] at hnd
    unfold applyUpdates
    rw [List.foldl_cons]
    rcases List.mem_cons.mp hmem with heq | hmem'
    · have hk : kv.1 = k := by rw [← heq]
      have hnot : k ∉ rest.map Prod.fst := hk ▸ hnd.1
      have hpres := getField_applyUpdates_notmem k ty hty rest
        (setField s kv.1 kv.2) (fun x hx => hfit x (List.mem_cons_of_mem _ hx)) hnot
      unfold applyUpdates at hpres
      rw [hpres]
      obtain ⟨t, hkt, hfits⟩ := hfit kv (List.mem_cons_self _ _)
      have hv : kv.2 = cv := by rw [← heq]
      rw [hk] at hkt
      rw [hv] at hfits
      rw [hk, hv]
      have : ty = t := by rw [hty] at hkt; injection hkt
      subst this
      exact getField_setField_same k ty cv hty hfits s
    · exact ih (setField s kv.1 kv.2)
        (fun x hx => hfit x (List.mem_cons_of_mem _ hx)) hnd.2 hmem'

theorem validateStep_accepts (sub : Subscription) (k : String) (v orig : PyValue)
    (ty : FieldTy) (cv : PyValue)
    (acc : List (String × PyValue) × List String)
    (hid : k ≠ "id") (horig : getField sub k = some orig)
    (hty : fieldTy k = some ty) (hv : v ≠ .pNone)
    (hco : coerceValue ty v = some cv)
    (hneg : ¬ (k = "cost" ∧ costNegative cv = true)) (hch : orig ≠ cv) :
    validateStep sub acc (k, v) = (upsert acc.1 k cv, addField acc.2 k) := by
  unfold validateStep
  dsimp only
  rw [if_neg hid, horig, hty]
  dsimp only
  rw [if_neg hv, hco]
  dsimp only
  rw [if_neg hneg, if_pos hch]

theorem validate_preserve_mem (sub : Subscription) (k : String) (cv : PyValue) :
    ∀ (data : List (String × PyValue)) acc, (k, cv) ∈ acc.1 →
      k ∉ data.map Prod.fst → (k, cv) ∈ (data.foldl (validateStep sub) acc).1 := by
  intro data
  induction data with
  | nil => intro acc h _; exact h
  | cons item rest ih =>
    intro acc h hnot
    rw [List.map_cons, List.mem_cons] at hnot
    push_neg at hnot
    rw [List.foldl_cons]
    rcases validateStep_cases sub acc item with hc | ⟨cv', hc⟩
    · rw [hc]; exact ih acc h hnot.2
    · rw [hc]
      exact ih _ (mem_upsert_of_mem_ne acc.1 item.1 cv' (k, cv) h
        (fun hh => hnot.1 hh)) hnot.2

theorem validate_mem_result (sub : Subscription) (k : String) (v orig : PyValue)
    (ty : FieldTy) (cv : PyValue)
    (hid : k ≠ "id") (horig : getField sub k = some orig)
    (hty : fieldTy k = some ty) (hv : v ≠ .pNone)
    (hco : coerceValue ty v = some cv)
    (hneg : ¬ (k = "cost" ∧ costNegative cv = true)) (hch : orig ≠ cv) :
    ∀ (data : List (String × PyValue)) acc, (k, v) ∈ data →
      (data.map Prod.fst).Nodup →
      (k, cv) ∈ (data.foldl (validateStep sub) acc).1 := by
  intro data
  induction data with
  | nil => intro acc hmem _; cases hmem
  | cons item rest ih =>
    intro acc hmem hnd
    rw [List.map_cons, List.nodup_cons] at hnd
    rw [List.foldl_cons]
    rcases List.mem_cons.mp hmem with heq | hmem'
    · have hk : item = (k, v) := heq.symm
      subst hk
      rw [validateStep_accepts sub k v orig ty cv acc hid horig hty hv hco hneg hch]
      exact validate_preserve_mem sub k cv rest _
        (mem_upsert_self acc.1 k cv) hnd.1
    · exact ih _ hmem' hnd.2

theorem getField_set_status (k : String) (ty : FieldTy) (hty : fieldTy k = some ty)
    (hne : k ≠ "status") (x : SubscriptionStatus) (s : Subscription) :
    getField { s with status := x } k = getField s k := by
  unfold fieldTy at hty
  split at hty <;>
    first
      | exact Option.noConfusion hty
      | rfl
      | exact absurd rfl hne

theorem getField_set_renewal (k : String) (ty : FieldTy) (hty : fieldTy k = some ty)
    (hne : k ≠ "next_renewal_date") (x : Option Date) (s : Subscription) :
    getField { s with next_renewal_date := x } k = getField s k := by
  unfold fieldTy at hty
  split at hty <;>
    first
      | exact Option.noConfusion hty
      | rfl
      | exact absurd rfl hne

theorem getField_consistency (k : String) (ty : FieldTy) (hty : fieldTy k = some ty)
    (hne : k ≠ "status") (s : Subscription) :
    getField (_ensure_status_consistency s).1 k = getField s k := by
  unfold _ensure_status_consistency
  split_ifs <;> dsimp only <;>
    first
      | exact getField_set_status k ty hty hne _ s
      | rfl

theorem getField_updren (k : String) (ty : FieldTy) (hty : fieldTy k = some ty)
    (hne : k ≠ "next_renewal_date") (today : Date) (s : Subscription)
    (cf : List String) (ms : Bool) :
    getField (_update_renewal_date today s cf ms).1 k = getField s k := by
  unfold _update_renewal_date
  split
  · exact getField_set_renewal k ty hty hne _ s
  · rfl

theorem updatePipeline_snd_ne_nil (today : Date) (sub : Subscription)
    (vres : List (String × PyValue) × List String) (h : vres.2 ≠ []) :
    (updatePipeline today sub vres).2 ≠ [] := by
  unfold updatePipeline
  dsimp only
  split <;> split <;> first | exact addField_ne_nil _ _ | exact h

theorem updatePipeline_getField (today : Date) (sub : Subscription)
    (vres : List (String × PyValue) × List String) (k : String) (ty : FieldTy)
    (hty : fieldTy k = some ty) (hst : k ≠ "status")
    (hrn : k ≠ "next_renewal_date") :
    getField (updatePipeline today sub vres).1 k =
      getField (applyUpdates sub vres.1) k := by
  unfold updatePipeline
  dsimp only
  rw [getField_updren k ty hty hrn, getField_consistency k ty hty hst]

theorem validate_insert_inert (sub : Subscription) (k : String) (v : PyValue)
    (hin : stepInert sub k v) (data₁ data₂ : List (String × PyValue)) :
    _validate_and_prepare_updates sub (data₁ ++ (k, v) :: data₂) =
      _validate_and_prepare_updates sub (data₁ ++ data₂) := by
  unfold _validate_and_prepare_updates
  rw [List.foldl_append, List.foldl_append, List.foldl_cons, hin]

/-- C8 amended: for an existing subscription id, `update_subscription`
skips the `id` key, unknown field names and fields whose values fail
validation or coercion (removing such an item does not change the
result at all), still applies every remaining valid field (fields other
than `status` and `next_renewal_date`, which the consistency rule and
the renewal recomputation may override afterwards), and returns true
exactly when at least one supplied field was valid and differed from
its current value — so an update in which every supplied field already
equals its current value reports no change; the returned flag may
however be true even though the final state equals the initial one
(see the counterexample). -/
theorem update_subscription_spec (today : Date) (svc : SubscriptionService)
    (subscription_id : String) (data : List (String × PyValue))
    (sub : Subscription)
    (hfind : svc.subscriptions.find? (fun s => s.id = subscription_id) = some sub) :
    ((update_subscription today svc subscription_id data).2 = true ↔
      (_validate_and_prepare_updates sub data).1 ≠ []) ∧
    ((update_subscription today svc subscription_id data).2 = false →
      (update_subscription today svc subscription_id data).1 = svc) ∧
    (∀ k v data₁ data₂, data = data₁ ++ (k, v) :: data₂ →
      (getField sub k = none ∨ k = "id") →
      update_subscription today svc subscription_id data =
        update_subscription today svc subscription_id (data₁ ++ data₂)) ∧
    (∀ k v orig ty data₁ data₂, data = data₁ ++ (k, v) :: data₂ →
      getField sub k = some orig → fieldTy k = some ty → k ≠ "id" →
      v ≠ .pNone → coerceValue ty v = none →
      update_subscription today svc subscription_id data =
        update_subscription today svc subscription_id (data₁ ++ data₂)) ∧
    ((∀ kv ∈ data, stepInert sub kv.1 kv.2) →
      update_subscription today svc subscription_id data = (svc, false)) ∧
    (∀ k v orig ty cv, (k, v) ∈ data → (data.map Prod.fst).Nodup →
      k ≠ "id" → k ≠ "status" → k ≠ "next_renewal_date" →
      getField sub k = some orig → fieldTy k = some ty → v ≠ .pNone →
      coerceValue ty v = some cv → ¬ (k = "cost" ∧ costNegative cv = true) →
      orig ≠ cv →
      ∃ sub', (update_subscription today svc subscription_id data).1.subscriptions =
          svc.subscriptions.map (fun s =>
            if s.id = subscription_id then sub' else s) ∧
        getField sub' k = some cv ∧
        (update_subscription today svc subscription_id data).2 = true) := by
  refine ⟨?_, ?_, ?_, ?_, ?_, ?_⟩
  · unfold update_subscription
    rw [hfind]
    dsimp only
    by_cases hv : (_validate_and_prepare_updates sub data).1 = []
    · rw [if_pos hv]
      simp [hv]
    · rw [if_neg hv]
      rw [if_pos (updatePipeline_snd_ne_nil today sub _
        (validate_snd_ne_nil sub data hv))]
      simp [hv]
  · unfold update_subscription
    rw [hfind]
    dsimp only
    by_cases hv : (_validate_and_prepare_updates sub data).1 = []
    · rw [if_pos hv]
      intro _
      rfl
    · rw [if_neg hv]
      rw [if_pos (updatePipeline_snd_ne_nil today sub _
        (validate_snd_ne_nil sub data hv))]
      intro h
      cases h
  · intro k v data₁ data₂ hdata hskip
    subst hdata
    have hin : stepInert sub k v := by
      rcases hskip with h | h
      · exact stepInert_unknown sub k v h
      · subst h; exact stepInert_id sub v
    unfold update_subscription
    rw [hfind]
    dsimp only
    rw [validate_insert_inert sub k v hin data₁ data₂]
  · intro k v orig ty data₁ data₂ hdata horig hty hid hv hco
    subst hdata
    unfold update_subscription
    rw [hfind]
    dsimp only
    rw [validate_insert_inert sub k v
      (stepInert_invalid sub k v orig ty horig hty hid hv hco) data₁ data₂]
  · intro hin
    unfold update_subscription
    rw [hfind]
    dsimp only
    rw [if_pos (by
      unfold _validate_and_prepare_updates
      rw [validate_inert_fold sub data hin ([], [])])]
  · intro k v orig ty cv hmem hnd hid hst hrn horig hty hv hco hneg hch
    have hmemres := validate_mem_result sub k v orig ty cv hid horig hty hv hco
      hneg hch data ([], []) hmem hnd
    have hv1 : (_validate_and_prepare_updates sub data).1 ≠ [] := by
      intro he
      unfold _validate_and_prepare_updates at he
      rw [he] at hmemres
      cases hmemres
    refine ⟨(updatePipeline today sub (_validate_and_prepare_updates sub data)).1,
      ?_, ?_, ?_⟩
    · unfold update_subscription
      rw [hfind]
      dsimp only
      rw [if_neg hv1, if_pos (updatePipeline_snd_ne_nil today sub _
        (validate_snd_ne_nil sub data hv1))]
    · rw [updatePipeline_getField today sub _ k ty hty hst hrn]
      exact getField_applyUpdates_mem k ty cv hty _ sub
        (validate_entries_fit sub data ([], []) (fun kv hkv => by cases hkv))
        (validate_keys_nodup sub data ([], []) (by simp)) hmemres
    · unfold update_subscription
      rw [hfind]
      dsimp only
      rw [if_neg hv1, if_pos (updatePipeline_snd_ne_nil today sub _
        (validate_snd_ne_nil sub data hv1))]

/-- C8 amended witness: updating the category of a one-subscription
service applies the new category and reports a change. -/
theorem update_subscription_spec_witness :
    ∃ sub',
      (update_subscription ⟨2024, 7, 10⟩
        { categories := [], budget_global := none, budget_categories := [],
          subscriptions :=
            [{ name := "X", cost := 5, billing_cycle := .monthly,
               start_date := ⟨2024, 1, 15⟩, status := .active, id := "s1",
               next_renewal_date := some ⟨2024, 7, 15⟩ }] }
        "s1" [("category", .pStr "Games")]).1.subscriptions =
        ([{ name := "X", cost := 5, billing_cycle := .monthly,
            start_date := ⟨2024, 1, 15⟩, status := .active, id := "s1",
            next_renewal_date := some ⟨2024, 7, 15⟩ }] :
          List Subscription).map (fun s =>
            if s.id = "s1" then sub' else s) ∧
      getField sub' "category" = some (.pStr "Games") ∧
      (update_subscription ⟨2024, 7, 10⟩
        { categories := [], budget_global := none, budget_categories := [],
          subscriptions :=
            [{ name := "X", cost := 5, billing_cycle := .monthly,
               start_date := ⟨2024, 1, 15⟩, status := .active, id := "s1",
               next_renewal_date := some ⟨2024, 7, 15⟩ }] }
        "s1" [("category", .pStr "Games")]).2 = true :=
  (update_subscription_spec ⟨2024, 7, 10⟩
    { categories := [], budget_global := none, budget_categories := [],
      subscriptions :=
        [{ name := "X", cost := 5, billing_cycle := .monthly,
           start_date := ⟨2024, 1, 15⟩, status := .active, id := "s1",
           next_renewal_date := some ⟨2024, 7, 15⟩ }] }
    "s1" [("category", .pStr "Games")]
    { name := "X", cost := 5, billing_cycle := .monthly,
      start_date := ⟨2024, 1, 15⟩, status := .active, id := "s1",
      next_renewal_date := some ⟨2024, 7, 15⟩ }
    (by decide)).2.2.2.2.2 "category" (.pStr "Games")
    (.pStr "Uncategorized") .tStr (.pStr "Games")
    (by decide) (by decide) (by decide) (by decide) (by decide)
    (by decide) (by decide) (by decide) (by decide) (by decide) (by decide)

/-- C4: with `today = 2024-07-15`, a subscription started 2024-01-31 on
a monthly cycle has its next renewal on 2024-07-29: the first monthly
step clamps Jan 31 to Feb 29 (leap year), and each later step re-clamps
from the previous result (Feb 29 → Mar 29, although March has 31 days),
never restoring day 31. -/
theorem renewal_clamp_compounding_scenario :
    calculate_next_renewal_date ⟨2024, 7, 15⟩ ⟨2024, 1, 31⟩ .monthly none
        = .ok ⟨2024, 7, 29⟩ ∧
    stepCycle .monthly ⟨2024, 1, 31⟩ = ⟨2024, 2, 29⟩ ∧
    stepCycle .monthly ⟨2024, 2, 29⟩ = ⟨2024, 3, 29⟩ ∧
    stepCycle .monthly ⟨2024, 3, 29⟩ = ⟨2024, 4, 29⟩ := by decide

end SubTracker
